import Mathlib

/-! # cert-sync agent: a shallow embedding of `pkg/agent`

The development embeds the Go sources `pkg/agent/agent.go` and
`pkg/agent/sync.go`:

* the Kubernetes `Secret` objects the agent looks at, and the pure predicates
  `isTlsSecret`, `wantAutoSync`, `isTlsSecretWithAutoSync`, `haveConcernedUpdate`;
* `validateThreadiness` and the part of `Agent.Initialize` / `Agent.Run` that
  decides how many worker loops are started;
* the reconciler `ensureCertificateSynchronized` / `ensureCertificateDeleted`
  with its helpers `ensureFileData` and `ensureCertificateDir`, run against an
  explicit model of the operating-system calls they make;
* the event handlers and `processNextItem`, run against an explicit model of
  the client-go work queue.

Go strings are Lean `String`s, `[]byte` is `List UInt8` (a nil slice and an
empty slice are both `[]`: `bytes.Equal` and `ioutil.WriteFile` do not tell
them apart), Go `int` is `Int`, and a Go `map[string]T` is an association list
read with `List.lookup`, a missing key giving the zero value of `T`.
-/

namespace CertSync

/-! ## Data model -/

/-- A Go byte slice. -/
abbrev Bytes := List UInt8

/-- The bytes of an ASCII string literal, as in the Go conversion
`[]byte("privatekeydata")`. -/
def bytesOf (s : String) : Bytes := s.toList.map (fun c => UInt8.ofNat c.toNat)

/-- Constant `CertSyncAnnotationKey` of `sync.go`. -/
def CertSyncAnnotationKey : String := "certsync.istio.io/autosync"

/-- Constant `core_v1.SecretTypeTLS` of the Kubernetes API. -/
def SecretTypeTLS : String := "kubernetes.io/tls"

/-- Constant `core_v1.SecretTypeOpaque` of the Kubernetes API. -/
def SecretTypeOpaque : String := "Opaque"

/-- Constant `core_v1.TLSPrivateKeyKey` of the Kubernetes API. -/
def TLSPrivateKeyKey : String := "tls.key"

/-- Constant `core_v1.TLSCertKey` of the Kubernetes API. -/
def TLSCertKey : String := "tls.crt"

/-- A `*core_v1.Secret` as the agent's functions receive it: the address of the
object and the fields the agent reads. Go compares two such pointers by
address; the informer never changes an object it has delivered, so equal
addresses go with equal fields and the comparison is equality of this
structure. -/
structure Secret where
  addr : Nat
  Namespace : String
  Name : String
  Labels : List (String × String)
  Annotations : List (String × String)
  Data : List (String × Bytes)
  Type_ : String
  deriving DecidableEq, Repr

/-- Go map index `s.Annotations[key]`: the zero value `""` for a missing key. -/
def Secret.annotation (s : Secret) (key : String) : String :=
  (s.Annotations.lookup key).getD ""

/-- Go map index `s.Data[key]`: the nil slice for a missing key. -/
def Secret.data (s : Secret) (key : String) : Bytes :=
  (s.Data.lookup key).getD []

/-! ## Qualification predicates (`sync.go`) -/

/-- Function `isTlsSecret`: the secret is of the TLS type. -/
def isTlsSecret (s : Secret) : Bool :=
  s.Type_ == SecretTypeTLS

/-- Function `wantAutoSync`: the user wants this secret synchronized. -/
def wantAutoSync (s : Secret) : Bool :=
  s.annotation CertSyncAnnotationKey == "true"

/-- Function `isTlsSecretWithAutoSync`. -/
def isTlsSecretWithAutoSync (s : Secret) : Bool :=
  isTlsSecret s && wantAutoSync s

/-- Function `haveConcernedUpdate`, with its two fast paths and the slow path. -/
def haveConcernedUpdate (oldSecret newSecret : Secret) : Bool :=
  if !wantAutoSync oldSecret && !wantAutoSync newSecret then
    false
  else if wantAutoSync oldSecret != wantAutoSync newSecret then
    true
  else if !(oldSecret.data TLSPrivateKeyKey == newSecret.data TLSPrivateKeyKey) then
    true
  else if !(oldSecret.data TLSCertKey == newSecret.data TLSCertKey) then
    true
  else
    false

/-- Function `fullSecretName`. -/
def fullSecretName (s : Secret) : String :=
  s.Namespace ++ "/" ++ s.Name

/-! ## Thread count (`agent.go`) -/

/-- Constant `MinThreadiness`. -/
def MinThreadiness : Int := 1

/-- Constant `MaxThreadiness`. -/
def MaxThreadiness : Int := 10

/-- Constant `DefaultThreadiness`. -/
def DefaultThreadiness : Int := 1

/-- Function `validateThreadiness`: the Go pair `(int, error)`, the error being
`none` for `nil`. -/
def validateThreadiness (t : Int) : Int × Option String :=
  if t = 0 then
    (DefaultThreadiness, none)
  else if t < MinThreadiness ∨ t > MaxThreadiness then
    (0, some "threadiness out of range")
  else
    (t, none)

/-! ## Slash-separated paths (Go package `path`)

`path.Clean` is modelled by its documented rules, element by element: empty
elements and `.` are dropped, an inner `..` removes the element before it, a
`..` that would climb above the root of a rooted path is dropped, a leading
`..` of an unrooted path is kept, and an empty result is `.`. -/

namespace path

/-- The elements of a path: the pieces between slashes (empty pieces included). -/
def splitSlash : List Char → List (List Char)
  | [] => [[]]
  | c :: cs =>
    if c = '/' then [] :: splitSlash cs
    else
      match splitSlash cs with
      | [] => [[c]]
      | h :: t => (c :: h) :: t

/-- The elements joined by single slashes. -/
def joinSlash : List (List Char) → List Char
  | [] => []
  | [a] => a
  | a :: b :: rest => a ++ '/' :: joinSlash (b :: rest)

/-- One element of `Clean`'s scan; `stack` is the output so far, last element
first. -/
def cleanStep (rooted : Bool) (stack : List (List Char)) (elem : List Char) :
    List (List Char) :=
  if elem = [] ∨ elem = ['.'] then stack
  else if elem = ['.', '.'] then
    match stack with
    | [] => if rooted then [] else [elem]
    | top :: rest => if top = ['.', '.'] then elem :: stack else rest
  else elem :: stack

/-- The elements of the cleaned path, first element first. -/
def cleanElems (rooted : Bool) (p : List Char) : List (List Char) :=
  ((splitSlash p).foldl (cleanStep rooted) []).reverse

/-- The text of a cleaned path with the given elements. -/
def render (rooted : Bool) (elems : List (List Char)) : List Char :=
  if rooted then '/' :: joinSlash elems
  else if elems = [] then ['.']
  else joinSlash elems

/-- `Clean` on the characters of a path. -/
def cleanChars (p : List Char) : List Char :=
  if p = [] then ['.']
  else render (p.head? == some '/') (cleanElems (p.head? == some '/') p)

/-- Function `path.Clean`. -/
def Clean (p : String) : String := String.mk (cleanChars p.data)

/-- Function `path.Join` for two elements: empty elements are ignored, the rest
is joined by a slash and cleaned; all empty gives the empty string. -/
def Join (a b : String) : String :=
  if a = "" then (if b = "" then "" else Clean b)
  else if b = "" then Clean (a ++ "/")
  else Clean (a ++ "/" ++ b)

/-- Function `path.Dir`: everything up to the final slash, cleaned. -/
def Dir (p : String) : String :=
  Clean (String.mk (p.data.reverse.dropWhile (fun c => c != '/')).reverse)

end path

/-! ## The operating system seen by the agent

The filesystem state has names and inodes. A name (a cleaned path) is a
directory with the agent's search and write permission, a hard link to an
inode, or a symbolic link to another path. An inode is a regular file
(contents, read and write permission of the agent) or the null device, which
accepts every write and keeps nothing. Two paths share contents when they are
hard links to one inode or when symbolic links lead from one to the other.
`Stat`, `ReadFile` and `WriteFile` follow symbolic links at the end of a path
(at most 40, as Linux does) and then look at the parent directory of the place
they reach; `Mkdir` and `Remove` act on the name itself. The target of a
symbolic link is kept as the cleaned path it stands for. Directories are looked
up by their own cleaned path: a symbolic link in the middle of a path is not
followed, and the two files of one secret, which lie in one directory, cannot
come to share contents that way. The process umask decides the permissions of
what the agent creates.
A call fails exactly when the state says so, so that repeating a call on the
same state gives the same result. Every call is recorded in a trace, so that
"no write happened" can be stated. -/

/-- The Go `error` values the agent can observe. -/
inductive Error where
  | ENOENT
  | EEXIST
  | ENOTDIR
  | EISDIR
  | EACCES
  | ENOTEMPTY
  | ELOOP
  | ESTALE
  | other (msg : String)
  deriving DecidableEq, Repr

/-- What a name in a directory stands for. -/
inductive Entry where
  | dir (searchable writable : Bool)
  | file (ino : Nat)
  | symlink (target : String)
  deriving DecidableEq, Repr

/-- What a hard link leads to. -/
inductive Inode where
  | regular (data : Bytes) (readable writable : Bool)
  | null
  deriving DecidableEq, Repr

/-- A filesystem state: cleaned path to entry and inode number to inode, the
first pair for a key counting. -/
structure FS where
  names : List (String × Entry)
  inodes : List (Nat × Inode)
  deriving DecidableEq, Repr

/-- A call to the operating system. -/
inductive Call where
  | Mkdir (name : String)
  | Stat (name : String)
  | ReadFile (name : String)
  | WriteFile (name : String) (data : Bytes)
  | Remove (name : String)
  deriving DecidableEq, Repr

/-- The filesystem, the umask of the agent's process and the calls made so
far, oldest first. -/
structure World where
  fs : FS
  umask : Nat
  trace : List Call
  deriving DecidableEq, Repr

/-- Append a call to the trace. -/
def World.record (w : World) (c : Call) : World :=
  { w with trace := w.trace ++ [c] }

/-- Does the umask take away the permission bit `bit` (`0o400` owner read,
`0o200` owner write, `0o100` owner search)? -/
def masked (umask bit : Nat) : Bool :=
  umask / bit % 2 == 1

/-- The state with the entry at `name` set to `e`. -/
def FS.setName (fs : FS) (name : String) (e : Entry) : FS :=
  { fs with names := (name, e) :: fs.names.filter (fun x => x.1 != name) }

/-- The state with the entry at `name` removed. -/
def FS.eraseName (fs : FS) (name : String) : FS :=
  { fs with names := fs.names.filter (fun x => x.1 != name) }

/-- The state with inode `ino` set to `n`. -/
def FS.setInode (fs : FS) (ino : Nat) (n : Inode) : FS :=
  { fs with inodes := (ino, n) :: fs.inodes.filter (fun x => x.1 != ino) }

/-- The inode number an entry refers to, 0 for none. -/
def Entry.ino : Entry → Nat
  | .file i => i
  | _ => 0

/-- An inode number that no name refers to and that holds no inode. -/
def FS.nextIno (fs : FS) : Nat :=
  (fs.names.map (fun x => x.2.ino) ++ fs.inodes.map (fun x => x.1)).foldr max 0 + 1

/-- Does the directory `name` have an entry? -/
def FS.hasChild (fs : FS) (name : String) : Bool :=
  fs.names.any (fun e => e.1 != name && path.Dir e.1 == name)

/-- The target of the symbolic link at `name`, if there is one. -/
def FS.link (fs : FS) (name : String) : Option String :=
  match fs.names.lookup name with
  | some (.symlink target) => some target
  | _ => none

/-- Follow symbolic links from `name`, at most `fuel` of them. -/
def followLinks (link : String → Option String) : Nat → String → Except Error String
  | 0, _ => .error .ELOOP
  | fuel + 1, name =>
    match link name with
    | some target => followLinks link fuel target
    | none => .ok name

/-- The place a path leads to once the symbolic links at its end are followed. -/
def FS.follow (fs : FS) (name : String) : Except Error String :=
  followLinks fs.link 41 name

/-- Resolution of the parent directory of `name`: whether entries may be
created and removed there, or the error of the failed resolution. -/
def FS.parent (fs : FS) (name : String) : Except Error Bool :=
  if name = "" then .error .ENOENT
  else
    match fs.names.lookup (path.Dir name) with
    | none => .error .ENOENT
    | some (.file _) => .error .ENOTDIR
    | some (.symlink _) => .error .ENOTDIR
    | some (.dir searchable writable) =>
      if searchable then .ok writable else .error .EACCES

/-- Function `os.IsNotExist`. -/
def os.IsNotExist : Error → Bool
  | .ENOENT => true
  | _ => false

/-- Function `os.IsExist`. -/
def os.IsExist : Error → Bool
  | .EEXIST => true
  | .ENOTEMPTY => true
  | _ => false

/-- Function `os.Mkdir(name, 0777)`. -/
def os.Mkdir (name : String) (w : World) : Option Error × World :=
  let w1 := w.record (.Mkdir name)
  match w.fs.parent name with
  | .error e => (some e, w1)
  | .ok writable =>
    match w.fs.names.lookup name with
    | some _ => (some .EEXIST, w1)
    | none =>
      if writable then
        let made := Entry.dir (!masked w.umask 0o100) (!masked w.umask 0o200)
        (none, { w1 with fs := w.fs.setName name made })
      else (some .EACCES, w1)

/-- Function `os.Stat`; of the `FileInfo` result only `IsDir()` is kept. -/
def os.Stat (name : String) (w : World) : Except Error Bool × World :=
  let w1 := w.record (.Stat name)
  match w.fs.follow name with
  | .error e => (.error e, w1)
  | .ok place =>
    match w.fs.parent place with
    | .error e => (.error e, w1)
    | .ok _ =>
      match w.fs.names.lookup place with
      | none => (.error .ENOENT, w1)
      | some (.symlink _) => (.error .ELOOP, w1)
      | some (.dir _ _) => (.ok true, w1)
      | some (.file ino) =>
        match w.fs.inodes.lookup ino with
        | none => (.error .ESTALE, w1)
        | some _ => (.ok false, w1)

/-- Function `ioutil.ReadFile`. -/
def ioutil.ReadFile (filename : String) (w : World) : Except Error Bytes × World :=
  let w1 := w.record (.ReadFile filename)
  match w.fs.follow filename with
  | .error e => (.error e, w1)
  | .ok place =>
    match w.fs.parent place with
    | .error e => (.error e, w1)
    | .ok _ =>
      match w.fs.names.lookup place with
      | none => (.error .ENOENT, w1)
      | some (.symlink _) => (.error .ELOOP, w1)
      | some (.dir _ _) => (.error .EISDIR, w1)
      | some (.file ino) =>
        match w.fs.inodes.lookup ino with
        | none => (.error .ESTALE, w1)
        | some .null => (.ok [], w1)
        | some (.regular data readable _) =>
          if readable then (.ok data, w1) else (.error .EACCES, w1)

/-- Function `ioutil.WriteFile(filename, data, 0666)`: create or truncate, then
write all of `data`. A file that is created gets the mode `0666` less the
umask. -/
def ioutil.WriteFile (filename : String) (data : Bytes) (w : World) : Option Error × World :=
  let w1 := w.record (.WriteFile filename data)
  match w.fs.follow filename with
  | .error e => (some e, w1)
  | .ok place =>
    match w.fs.parent place with
    | .error e => (some e, w1)
    | .ok dirWritable =>
      match w.fs.names.lookup place with
      | some (.symlink _) => (some .ELOOP, w1)
      | some (.dir _ _) => (some .EISDIR, w1)
      | some (.file ino) =>
        match w.fs.inodes.lookup ino with
        | none => (some .ESTALE, w1)
        | some .null => (none, w1)
        | some (.regular _ readable writable) =>
          if writable then
            (none, { w1 with fs := w.fs.setInode ino (.regular data readable writable) })
          else (some .EACCES, w1)
      | none =>
        if dirWritable then
          let ino := w.fs.nextIno
          let made := Inode.regular data (!masked w.umask 0o400) (!masked w.umask 0o200)
          (none, { w1 with fs := (w.fs.setName place (.file ino)).setInode ino made })
        else (some .EACCES, w1)

/-- Function `os.Remove`: removes the named file, link or empty directory. -/
def os.Remove (name : String) (w : World) : Option Error × World :=
  let w1 := w.record (.Remove name)
  match w.fs.parent name with
  | .error e => (some e, w1)
  | .ok dirWritable =>
    match w.fs.names.lookup name with
    | none => (some .ENOENT, w1)
    | some (.dir _ _) =>
      if w.fs.hasChild name then (some .ENOTEMPTY, w1)
      else if dirWritable then (none, { w1 with fs := w.fs.eraseName name })
      else (some .EACCES, w1)
    | some _ =>
      if dirWritable then (none, { w1 with fs := w.fs.eraseName name })
      else (some .EACCES, w1)

/-- The number of `WriteFile` calls on `name` in a trace. -/
def writesTo (name : String) (t : List Call) : Nat :=
  (t.filter (fun c => match c with
    | .WriteFile n _ => n == name
    | _ => false)).length

/-- The number of `WriteFile` calls in a trace. -/
def writes (t : List Call) : Nat :=
  (t.filter (fun c => match c with
    | .WriteFile _ _ => true
    | _ => false)).length

/-! ## The work queue (client-go `workqueue`)

The queue of `workqueue.Type`: `queue` is the order of delivery, `dirty` the
items waiting to be processed, `processing` the items handed out by `Get` and
not yet `Done`. Items are compared with Go's `==`. The agent queues
`*core_v1.Secret` pointers, which Go compares by address: two objects with the
same contents at different addresses are two items. The rate limiter is only
consulted by `AddRateLimited`, which the agent never calls, so `Forget` has
nothing to clear. -/

/-- State of a `workqueue.Type`. -/
structure WorkQueue (ι : Type) where
  queue : List ι
  dirty : List ι
  processing : List ι
  shuttingDown : Bool
  deriving DecidableEq, Repr

namespace WorkQueue

variable {ι : Type} [DecidableEq ι]

/-- Function `workqueue.NewRateLimitingQueue`: an empty queue. -/
def NewRateLimitingQueue : WorkQueue ι :=
  { queue := [], dirty := [], processing := [], shuttingDown := false }

/-- Method `Add`. -/
def Add (q : WorkQueue ι) (item : ι) : WorkQueue ι :=
  if q.shuttingDown then q
  else if item ∈ q.dirty then q
  else
    let q1 := { q with dirty := item :: q.dirty }
    if item ∈ q.processing then q1
    else { q1 with queue := q1.queue ++ [item] }

/-- Method `Get`: `none` when the call blocks (nothing queued, not shutting
down), `some (none, q)` for `quit = true`, `some (some item, q)` otherwise. -/
def Get (q : WorkQueue ι) : Option (Option ι × WorkQueue ι) :=
  match q.queue with
  | [] => if q.shuttingDown then some (none, q) else none
  | item :: rest =>
    some (some item, { q with
      queue := rest
      processing := item :: q.processing
      dirty := q.dirty.filter (fun x => x != item) })

/-- Method `Done`. -/
def Done (q : WorkQueue ι) (item : ι) : WorkQueue ι :=
  let q1 := { q with processing := q.processing.filter (fun x => x != item) }
  if item ∈ q1.dirty then { q1 with queue := q1.queue ++ [item] } else q1

/-- Method `Forget`. -/
def Forget (q : WorkQueue ι) (_item : ι) : WorkQueue ι := q

/-- Method `ShutDown`. -/
def ShutDown (q : WorkQueue ι) : WorkQueue ι :=
  { q with shuttingDown := true }

end WorkQueue

/-! ## The agent (`agent.go`, `sync.go`) -/

/-- The fields of `Agent` that the embedded methods use. -/
structure Agent where
  certDir : String
  threadiness : Int
  queue : WorkQueue Secret
  deriving DecidableEq, Repr

/-- Struct `InitOptions`. -/
structure InitOptions where
  CertDir : String
  KubeConfig : String
  Thread : Int
  deriving DecidableEq, Repr

/-- Function `filepath.Abs` on a Unix system with working directory `cwd`. -/
def filepath.Abs (cwd : String) (p : String) : String :=
  if p.data.head? == some '/' then path.Clean p else path.Join cwd p

/-- Function `validateCertificateDir`: the Go pair `(string, error)`. -/
def validateCertificateDir (cwd : String) (dir : String) (w : World) :
    (String × Option Error) × World :=
  let absPath := filepath.Abs cwd dir
  match os.Stat absPath w with
  | (.error err, w1) => (("", some err), w1)
  | (.ok isDir, w1) =>
    if !isDir then (("", some (.other "not a valid directory")), w1)
    else ((absPath, none), w1)

/-- Method `Agent.Initialize`: `none` where the Go code calls `glog.Fatalf`.
`kubeOk` says whether `initializeKubeClient` succeeded. -/
def Agent.Initialize (opts : InitOptions) (cwd : String) (kubeOk : Bool) (w : World) :
    Option Agent × World :=
  match validateCertificateDir cwd opts.CertDir w with
  | ((_, some _), w1) => (none, w1)
  | ((certDir, none), w1) =>
    match validateThreadiness opts.Thread with
    | (_, some _) => (none, w1)
    | (threadiness, none) =>
      if !kubeOk then (none, w1)
      else
        (some { certDir := certDir, threadiness := threadiness,
                queue := WorkQueue.NewRateLimitingQueue }, w1)

set_option linter.unusedVariables false in
/-- Method `Agent.Run` up to the point where it waits for `stopCh`: the number
of `go wait.Until(a.runWorker, ...)` statements executed by the loop
`for i := 0; i < 1; i++`. `cacheSynced` is the result of
`cache.WaitForCacheSync`. -/
def Agent.Run (a : Agent) (cacheSynced : Bool) : Nat :=
  if !cacheSynced then 0
  else (List.range 1).foldl (fun started _ => started + 1) 0

/-- The directory `subdir` of `ensureCertificateSynchronized` and
`ensureCertificateDeleted`. -/
def Agent.subdir (a : Agent) (secret : Secret) : String :=
  path.Join a.certDir secret.Namespace

/-- The path `privateKeyPath` of the same two methods. -/
def Agent.privateKeyPath (a : Agent) (secret : Secret) : String :=
  path.Join (a.subdir secret) (secret.Name ++ ".key")

/-- The path `certificatePath` of the same two methods. -/
def Agent.certificatePath (a : Agent) (secret : Secret) : String :=
  path.Join (a.subdir secret) (secret.Name ++ ".crt")

/-- Function `ensureFileData`. -/
def ensureFileData (filename : String) (data : Bytes) (w : World) : Option Error × World :=
  match os.Stat filename w with
  | (.error err, w1) =>
    if os.IsNotExist err then ioutil.WriteFile filename data w1
    else (some err, w1)
  | (.ok _, w1) =>
    match ioutil.ReadFile filename w1 with
    | (.error err, w2) => (some err, w2)
    | (.ok oldData, w2) =>
      if oldData = data then (none, w2)
      else ioutil.WriteFile filename data w2

/-- Function `ensureCertificateDir`. -/
def ensureCertificateDir (dir : String) (w : World) : Option Error × World :=
  match os.Mkdir dir w with
  | (some err, w1) =>
    if os.IsExist err then (none, w1)
    else (some err, w1)
  | (none, w1) => (none, w1)

/-- Method `Agent.ensureCertificateSynchronized`. -/
def Agent.ensureCertificateSynchronized (a : Agent) (secret : Secret) (w : World) :
    Option Error × World :=
  match ensureCertificateDir (a.subdir secret) w with
  | (some err, w1) => (some err, w1)
  | (none, w1) =>
    match ensureFileData (a.privateKeyPath secret) (secret.data TLSPrivateKeyKey) w1 with
    | (some err, w2) => (some err, w2)
    | (none, w2) =>
      match ensureFileData (a.certificatePath secret) (secret.data TLSCertKey) w2 with
      | (some err, w3) => (some err, w3)
      | (none, w3) => (none, w3)

/-- Method `Agent.ensureCertificateDeleted`. -/
def Agent.ensureCertificateDeleted (a : Agent) (secret : Secret) (w : World) :
    Option Error × World :=
  match os.Remove (a.privateKeyPath secret) w with
  | (some err, w1) => (some err, w1)
  | (none, w1) =>
    match os.Remove (a.certificatePath secret) w1 with
    | (some err, w2) => (some err, w2)
    | (none, w2) => (none, w2)

/-- Method `Agent.secretsEventHandlerAdd`. -/
def Agent.secretsEventHandlerAdd (a : Agent) (obj : Secret) : Agent :=
  if !isTlsSecretWithAutoSync obj then a
  else { a with queue := a.queue.Add obj }

/-- Method `Agent.secretsEventHandlerUpdate`. -/
def Agent.secretsEventHandlerUpdate (a : Agent) (oldObj newObj : Secret) : Agent :=
  if !haveConcernedUpdate oldObj newObj then a
  else { a with queue := a.queue.Add newObj }

/-- Method `Agent.secretsEventHandlerDelete`; the result of the removal is only
logged. -/
def Agent.secretsEventHandlerDelete (a : Agent) (obj : Secret) (w : World) : World :=
  if !isTlsSecretWithAutoSync obj then w
  else (a.ensureCertificateDeleted obj w).2

/-- Method `Agent.processNextItem`: `none` when `Get` blocks; otherwise the
returned flag, the agent with its queue after `Forget` and the deferred `Done`,
and the world after the synchronization, whose result is only logged. -/
def Agent.processNextItem (a : Agent) (w : World) : Option (Bool × Agent × World) :=
  match a.queue.Get with
  | none => none
  | some (none, q) => some (false, { a with queue := q }, w)
  | some (some secret, q) =>
    let w1 := (a.ensureCertificateSynchronized secret w).2
    some (true, { a with queue := ((q.Forget secret).Done secret) }, w1)

/-! ## Notions used to state the properties -/

/-- The calls made on the way from the world `before` to the world `after`. -/
def callsSince (before after : World) : List Call :=
  after.trace.drop before.trace.length

/-- The contents of the file that `name` leads to: the data of a regular file,
nothing for the null device, `none` where there is no file. -/
def FS.contents (fs : FS) (name : String) : Option Bytes :=
  match fs.follow name with
  | .error _ => none
  | .ok place =>
    match fs.names.lookup place with
    | some (.file ino) =>
      match fs.inodes.lookup ino with
      | some (.regular data _ _) => some data
      | some .null => some []
      | none => none
    | _ => none

/-- The paths `p` and `q` do not lead to one file: they lead to different
places, and these are not hard links to one inode. -/
def FS.apart (fs : FS) (p q : String) : Bool :=
  match fs.follow p, fs.follow q with
  | .ok lp, .ok lq =>
    lp != lq &&
      (match fs.names.lookup lp, fs.names.lookup lq with
        | some (.file i), some (.file j) => i != j
        | _, _ => true)
  | _, _ => true

/-- The path `p` does not lead to a device. -/
def FS.plain (fs : FS) (p : String) : Bool :=
  match fs.follow p with
  | .ok place =>
    match fs.names.lookup place with
    | some (.file ino) =>
      match fs.inodes.lookup ino with
      | some .null => false
      | _ => true
    | _ => true
  | _ => true

/-- The path `p` leads to the place `l`, whose parent directory resolves and
which is a hard link to inode `i`. -/
def FS.denotes (fs : FS) (p l : String) (i : Nat) : Prop :=
  fs.follow p = .ok l ∧ (∃ b, fs.parent l = .ok b) ∧ fs.names.lookup l = some (.file i)

/-- The parent directory of `name` resolves and there is an entry at `name`. -/
def FS.present (fs : FS) (name : String) : Prop :=
  (∃ b, fs.parent name = .ok b) ∧ fs.names.lookup name ≠ none

/-- The state `fs'` is `fs` after one file was written: at the place `l`, which
was or has become a hard link to inode `i`; in the second case `i` is new. No
other name and no other inode has changed. -/
def FS.step (fs fs' : FS) (l : String) (i : Nat) : Prop :=
  (fs.names.lookup l = some (.file i) ∨ (fs.names.lookup l = none ∧ i = fs.nextIno)) ∧
  fs'.names.lookup l = some (.file i) ∧
  (∀ q, q ≠ l → fs'.names.lookup q = fs.names.lookup q) ∧
  (∀ j, j ≠ i → fs'.inodes.lookup j = fs.inodes.lookup j)

/-- The two files of a secret are in place: the directory is there, and the two
paths lead to different places that are hard links to different inodes, regular
files with contents `kd` and `cd`, readable by the agent or not according to
`rk` and `rc`. -/
def FS.synced (fs : FS) (sub key crt : String) (kd cd : Bytes) (rk rc : Bool) : Prop :=
  fs.present sub ∧
  ∃ lk ik lc ic wk wc, fs.denotes key lk ik ∧ fs.denotes crt lc ic ∧ lk ≠ lc ∧ ik ≠ ic ∧
    fs.inodes.lookup ik = some (.regular kd rk wk) ∧
    fs.inodes.lookup ic = some (.regular cd rc wc)

/-- The output stack of `Clean`'s scan (last element first) is well formed:
no element is empty, `.` or contains a slash, and `..` elements only sit at the
bottom of the stack of an unrooted path. -/
def path.okStack (rooted : Bool) : List (List Char) → Prop
  | [] => True
  | x :: rest =>
    (x ≠ [] ∧ x ≠ ['.'] ∧ '/' ∉ x) ∧
    (x = ['.', '.'] → rooted = false ∧ ∀ y ∈ rest, y = ['.', '.']) ∧
    path.okStack rooted rest

/-! ## Worked inputs -/

/-- The secret of the repository's tests (`makeSecret`), with an address, an
identity, a type, an annotation map and the two payloads. -/
def exampleSecret (addr : Nat) (ns name type : String)
    (annotations : List (String × String)) (key cert : String) : Secret :=
  { addr := addr, Namespace := ns, Name := name, Labels := [], Annotations := annotations,
    Data := [(TLSPrivateKeyKey, bytesOf key), (TLSCertKey, bytesOf cert)], Type_ := type }

/-- An agent as `Initialize` builds it for `--certDir /certs`. -/
def exampleAgent : Agent :=
  { certDir := "/certs", threadiness := 1, queue := WorkQueue.NewRateLimitingQueue }

/-- A filesystem holding only the root and the certificate directory, and the
usual umask `022`. -/
def exampleWorld : World :=
  { fs := { names := [("/", .dir true true), ("/certs", .dir true true)], inodes := [] },
    umask := 0o022, trace := [] }

/-- The TLS secret `kube-system/foo` that asks for synchronization. -/
def fooSecret : Secret :=
  exampleSecret 1 "kube-system" "foo" SecretTypeTLS [(CertSyncAnnotationKey, "true")]
    "privatekeydata" "certificatedata"

/-- The secret `kube-system/foo` after a renewal of key and certificate, a new
object. -/
def fooSecretRenewed : Secret :=
  exampleSecret 2 "kube-system" "foo" SecretTypeTLS [(CertSyncAnnotationKey, "true")]
    "new-privatekeydata" "new-certificatedata"

/-- The secret `kube-system/foo` after a renewal of the key only, a new
object. -/
def fooSecretNewKey : Secret :=
  exampleSecret 3 "kube-system" "foo" SecretTypeTLS [(CertSyncAnnotationKey, "true")]
    "new-privatekeydata" "certificatedata"

/-- The secret `kube-system/foo` after the annotation was taken away, a new
object. -/
def fooSecretOptedOut : Secret :=
  exampleSecret 4 "kube-system" "foo" SecretTypeTLS [] "privatekeydata" "certificatedata"

/-- The options of `agent sync --certDir /certs --thread 5`. -/
def fiveThreads : InitOptions :=
  { CertDir := "/certs", KubeConfig := "", Thread := 5 }

/-- The example filesystem under a umask that takes the owner's read permission
away from every file the agent creates. -/
def unreadableWorld : World :=
  { exampleWorld with umask := 0o400 }

/-- A filesystem in which `foo.key` and `foo.crt` of `kube-system` are hard
links to one empty regular file. -/
def hardLinkedWorld : World :=
  { fs :=
      { names :=
          [("/", .dir true true), ("/certs", .dir true true),
           ("/certs/kube-system", .dir true true),
           ("/certs/kube-system/foo.key", .file 1),
           ("/certs/kube-system/foo.crt", .file 1)]
        inodes := [(1, .regular [] true true)] }
    umask := 0o022
    trace := [] }

/-- A filesystem in which `foo.key` of `kube-system` is a symbolic link to
`foo.crt`, which does not exist yet. -/
def symLinkedWorld : World :=
  { fs :=
      { names :=
          [("/", .dir true true), ("/certs", .dir true true),
           ("/certs/kube-system", .dir true true),
           ("/certs/kube-system/foo.key", .symlink "/certs/kube-system/foo.crt")]
        inodes := [] }
    umask := 0o022
    trace := [] }

/-- A filesystem in which `foo.key` of `kube-system` is the null device. -/
def deviceWorld : World :=
  { fs :=
      { names :=
          [("/", .dir true true), ("/certs", .dir true true),
           ("/certs/kube-system", .dir true true),
           ("/certs/kube-system/foo.key", .file 1)]
        inodes := [(1, .null)] }
    umask := 0o022
    trace := [] }

/-! # Properties -/

/-! ## Qualification predicates -/

theorem wantAutoSync_iff (s : Secret) :
    wantAutoSync s = true ↔ s.Annotations.lookup CertSyncAnnotationKey = some "true" := by
  unfold wantAutoSync Secret.annotation
  cases h : s.Annotations.lookup CertSyncAnnotationKey with
  | none => simp
  | some v => simp

/-- C1: `isTlsSecretWithAutoSync s` is true exactly when the type is the TLS
type and the annotation `certsync.istio.io/autosync` is present with value
`"true"`; it is false for any other type, for a missing key and for any other
value of the annotation (such as `"false"`, `""`, `"TRUE"`). -/
theorem isTlsSecretWithAutoSync_iff (s : Secret) :
    (isTlsSecretWithAutoSync s = true ↔
      s.Type_ = SecretTypeTLS ∧
        s.Annotations.lookup CertSyncAnnotationKey = some "true") ∧
    (s.Type_ ≠ SecretTypeTLS → isTlsSecretWithAutoSync s = false) ∧
    (s.Annotations.lookup CertSyncAnnotationKey = none →
      isTlsSecretWithAutoSync s = false) ∧
    (∀ v, v ≠ "true" → s.Annotations.lookup CertSyncAnnotationKey = some v →
      isTlsSecretWithAutoSync s = false) := by
  have key : isTlsSecretWithAutoSync s = true ↔
      s.Type_ = SecretTypeTLS ∧
        s.Annotations.lookup CertSyncAnnotationKey = some "true" := by
    rw [← wantAutoSync_iff]
    simp [isTlsSecretWithAutoSync, isTlsSecret]
  refine ⟨key, ?_, ?_, ?_⟩
  · intro h
    rw [← Bool.not_eq_true, key]
    exact fun hc => h hc.1
  · intro h
    rw [← Bool.not_eq_true, key, h]
    simp
  · intro v hv h
    rw [← Bool.not_eq_true, key, h]
    simp [hv]

/-- The annotation values of the tests for C1: `"true"` on a TLS secret
qualifies, `"TRUE"` does not. -/
theorem isTlsSecretWithAutoSync_iff_witness :
    (fooSecret.Type_ = SecretTypeTLS ∧
      fooSecret.Annotations.lookup CertSyncAnnotationKey = some "true") ∧
    isTlsSecretWithAutoSync fooSecret = true ∧
    isTlsSecretWithAutoSync
      { fooSecret with Annotations := [(CertSyncAnnotationKey, "TRUE")] } = false :=
  ⟨⟨rfl, by decide⟩,
   (isTlsSecretWithAutoSync_iff fooSecret).1.2 ⟨rfl, by decide⟩,
   (isTlsSecretWithAutoSync_iff
      { fooSecret with Annotations := [(CertSyncAnnotationKey, "TRUE")] }).2.2.2
        "TRUE" (by decide) (by decide)⟩

theorem haveConcernedUpdate_iff_aux (old new : Secret) :
    (haveConcernedUpdate old new = true → wantAutoSync old = true ∨ wantAutoSync new = true) ∧
    (wantAutoSync old = false → wantAutoSync new = false →
      haveConcernedUpdate old new = false) := by
  unfold haveConcernedUpdate
  cases wantAutoSync old <;> cases wantAutoSync new <;> simp

/-- C2: `haveConcernedUpdate old new` is true exactly when `wantAutoSync`
differs between the two, or both want autosync and the `tls.key` bytes or the
`tls.crt` bytes differ, a key absent from `Data` counting as the empty byte
sequence. It is false on identical snapshots, false when payload maps and the
autosync annotation agree (whatever else differs), and false when neither
snapshot wants autosync. -/
theorem haveConcernedUpdate_iff (old new : Secret) :
    (haveConcernedUpdate old new = true ↔
      wantAutoSync old ≠ wantAutoSync new ∨
        (wantAutoSync old = true ∧ wantAutoSync new = true ∧
          ((old.Data.lookup TLSPrivateKeyKey).getD [] ≠
              (new.Data.lookup TLSPrivateKeyKey).getD [] ∨
           (old.Data.lookup TLSCertKey).getD [] ≠
              (new.Data.lookup TLSCertKey).getD []))) ∧
    haveConcernedUpdate old old = false ∧
    (old.Data = new.Data →
      old.Annotations.lookup CertSyncAnnotationKey =
        new.Annotations.lookup CertSyncAnnotationKey →
      haveConcernedUpdate old new = false) ∧
    (wantAutoSync old = false → wantAutoSync new = false →
      haveConcernedUpdate old new = false) := by
  refine ⟨?_, ?_, ?_, ?_⟩
  · unfold haveConcernedUpdate Secret.data
    cases wantAutoSync old <;> cases wantAutoSync new <;> simp
  · unfold haveConcernedUpdate
    cases wantAutoSync old <;> simp
  · intro hd ha
    have hw : wantAutoSync old = wantAutoSync new := by
      unfold wantAutoSync Secret.annotation
      rw [ha]
    unfold haveConcernedUpdate Secret.data
    rw [hw, hd]
    cases wantAutoSync new <;> simp
  · intro ho hn
    unfold haveConcernedUpdate
    rw [ho, hn]
    simp

/-- The test inputs of `TestHaveConcernedUpdate` for C2: an unrelated annotation
and label change is not a concerned update. -/
theorem haveConcernedUpdate_iff_witness :
    haveConcernedUpdate fooSecret
      { fooSecret with
        Labels := [("someNoneRelatedLabelKey", "someNoneRelatedLabelValue")]
        Annotations := [(CertSyncAnnotationKey, "true"),
          ("someNoneRelatedKey", "someNoneRelatedValue")] } = false :=
  (haveConcernedUpdate_iff fooSecret _).2.2.1 (by decide) (by decide)

/-! ## Thread count -/

/-- C10: `validateThreadiness t` gives the default 1 without error for `t = 0`,
gives `t` without error for `1 ≤ t ≤ 10`, gives an error for every negative `t`
and every `t > 10`; so every accepted value lies in `[1, 10]`. -/
theorem validateThreadiness_spec (t : Int) :
    (t = 0 → validateThreadiness t = (1, none)) ∧
    (1 ≤ t ∧ t ≤ 10 → validateThreadiness t = (t, none)) ∧
    (t < 0 ∨ 10 < t → (validateThreadiness t).2 ≠ none) ∧
    ((validateThreadiness t).2 = none →
      1 ≤ (validateThreadiness t).1 ∧ (validateThreadiness t).1 ≤ 10) := by
  unfold validateThreadiness MinThreadiness MaxThreadiness DefaultThreadiness
  refine ⟨?_, ?_, ?_, ?_⟩
  · intro h
    simp [h]
  · intro h
    have h0 : t ≠ 0 := by omega
    have h1 : ¬ (t < 1 ∨ t > 10) := by omega
    simp [h0, h1]
  · intro h
    have h0 : t ≠ 0 := by omega
    have h1 : t < 1 ∨ t > 10 := by omega
    simp [h0, h1]
  · intro h
    by_cases h0 : t = 0
    · simp [h0]
    · by_cases h1 : t < 1 ∨ t > 10
      · simp [h0, h1] at h
      · simp only [h0, h1, if_false]
        omega

/-- The thread counts 7 and 11 as instances of C10. -/
theorem validateThreadiness_spec_witness :
    ((1 : Int) ≤ 7 ∧ (7 : Int) ≤ 10) ∧ validateThreadiness 7 = (7, none) ∧
    (validateThreadiness 11).2 ≠ none :=
  ⟨⟨by decide, by decide⟩, (validateThreadiness_spec 7).2.1 ⟨by decide, by decide⟩,
   (validateThreadiness_spec 11).2.2.1 (Or.inr (by decide))⟩

/-- C8: with `--thread 5` the agent is initialized with `threadiness = 5`, yet
`Run` starts one worker loop; it starts one worker loop for every agent. -/
theorem Run_starts_one_worker :
    (∃ a, (Agent.Initialize fiveThreads "/" true exampleWorld).1 = some a ∧
      a.threadiness = 5 ∧ a.Run true = 1) ∧
    ∀ a : Agent, a.Run true = 1 := by
  constructor
  · exact ⟨{ certDir := "/certs", threadiness := 5,
             queue := WorkQueue.NewRateLimitingQueue }, by decide, rfl, rfl⟩
  · intro a
    rfl

/-! ## Event handlers and the work queue -/

theorem WorkQueue.mem_queue_Add {ι : Type} [DecidableEq ι] (q : WorkQueue ι) (item x : ι)
    (hx : x ∈ (q.Add item).queue) : x ∈ q.queue ∨ (x = item ∧ q.Add item ≠ q) := by
  unfold WorkQueue.Add at hx ⊢
  by_cases h1 : q.shuttingDown = true
  · simp [h1] at hx
    exact Or.inl hx
  · by_cases h2 : item ∈ q.dirty
    · simp [h1, h2] at hx
      exact Or.inl hx
    · by_cases h3 : item ∈ q.processing
      · simp [h1, h2, h3] at hx
        exact Or.inl hx
      · simp only [h1, h2, h3, if_false, Bool.false_eq_true] at hx ⊢
        rcases List.mem_append.1 hx with h | h
        · exact Or.inl h
        · refine Or.inr ⟨by simpa using h, ?_⟩
          intro hc
          have := congrArg WorkQueue.dirty hc
          simp at this

/-- C5 fails for updates: the update that takes the annotation away from the
TLS secret `kube-system/foo` puts the new snapshot on the queue, although
`isTlsSecretWithAutoSync` is false for it. -/
theorem eligibility_update_counterexample :
    (exampleAgent.secretsEventHandlerUpdate fooSecret fooSecretOptedOut).queue.queue =
        [fooSecretOptedOut] ∧
      isTlsSecretWithAutoSync fooSecretOptedOut = false := by
  decide

/-- C5, amended: a secret that the Add handler puts on the queue satisfies
`isTlsSecretWithAutoSync`, and the Delete handler touches the filesystem only
for such a secret. The Update handler puts only the new snapshot on the queue,
and only when `haveConcernedUpdate old new` holds, which requires the old or the
new snapshot to carry the annotation with value `"true"`. -/
theorem handlers_eligibility (a : Agent) (s old new : Secret) (w : World) :
    (∀ x ∈ (a.secretsEventHandlerAdd s).queue.queue,
      x ∈ a.queue.queue ∨ (x = s ∧ isTlsSecretWithAutoSync s = true)) ∧
    (a.secretsEventHandlerDelete s w ≠ w → isTlsSecretWithAutoSync s = true) ∧
    (∀ x ∈ (a.secretsEventHandlerUpdate old new).queue.queue,
      x ∈ a.queue.queue ∨
        (x = new ∧ haveConcernedUpdate old new = true ∧
          (old.Annotations.lookup CertSyncAnnotationKey = some "true" ∨
           new.Annotations.lookup CertSyncAnnotationKey = some "true"))) := by
  refine ⟨?_, ?_, ?_⟩
  · intro x hx
    unfold Agent.secretsEventHandlerAdd at hx
    cases hq : isTlsSecretWithAutoSync s with
    | false =>
      simp [hq] at hx
      exact Or.inl hx
    | true =>
      simp [hq] at hx
      rcases WorkQueue.mem_queue_Add _ _ _ hx with h | h
      · exact Or.inl h
      · exact Or.inr ⟨h.1, rfl⟩
  · intro h
    unfold Agent.secretsEventHandlerDelete at h
    cases hq : isTlsSecretWithAutoSync s with
    | false => simp [hq] at h
    | true => rfl
  · intro x hx
    unfold Agent.secretsEventHandlerUpdate at hx
    cases hq : haveConcernedUpdate old new with
    | false =>
      simp [hq] at hx
      exact Or.inl hx
    | true =>
      simp [hq] at hx
      rcases WorkQueue.mem_queue_Add _ _ _ hx with h | h
      · exact Or.inl h
      · refine Or.inr ⟨h.1, rfl, ?_⟩
        rw [← wantAutoSync_iff, ← wantAutoSync_iff]
        by_contra hc
        have ho : wantAutoSync old = false := by
          cases hv : wantAutoSync old
          · rfl
          · exact absurd (Or.inl hv) hc
        have hn : wantAutoSync new = false := by
          cases hv : wantAutoSync new
          · rfl
          · exact absurd (Or.inr hv) hc
        have := (haveConcernedUpdate_iff_aux old new).2 ho hn
        rw [hq] at this
        exact absurd this (by decide)

/-- The Add event for `kube-system/foo` as an instance of C5, amended: the
secret is queued and it qualifies. -/
theorem handlers_eligibility_witness :
    fooSecret ∈ (exampleAgent.secretsEventHandlerAdd fooSecret).queue.queue ∧
    (fooSecret ∈ exampleAgent.queue.queue ∨
      (fooSecret = fooSecret ∧ isTlsSecretWithAutoSync fooSecret = true)) :=
  ⟨by decide,
   (handlers_eligibility exampleAgent fooSecret fooSecret fooSecret exampleWorld).1
     fooSecret (by decide)⟩

/-- C7: the Add event for `kube-system/foo` is followed, before any `Get`, by
the Update event to its renewed snapshot. The queue then holds two items for
the one key `kube-system/foo`; the first `Get` hands out the snapshot with the
earlier payload and, after its `Forget` and `Done`, a second `Get` hands out
the later one. So it is for every two distinct objects that the handlers queue
on a fresh queue, whatever their namespace and name. -/
theorem same_key_queued_twice :
    (fooSecret.Namespace = fooSecretRenewed.Namespace ∧
      fooSecret.Name = fooSecretRenewed.Name ∧
      ((exampleAgent.secretsEventHandlerAdd fooSecret).secretsEventHandlerUpdate
          fooSecret fooSecretRenewed).queue.queue = [fooSecret, fooSecretRenewed] ∧
      (((exampleAgent.secretsEventHandlerAdd fooSecret).secretsEventHandlerUpdate
          fooSecret fooSecretRenewed).queue.Get).map Prod.fst = some (some fooSecret) ∧
      ((((exampleAgent.secretsEventHandlerAdd fooSecret).secretsEventHandlerUpdate
          fooSecret fooSecretRenewed).queue.Get).bind
            (fun r => ((r.2.Forget fooSecret).Done fooSecret).Get)).map Prod.fst =
        some (some fooSecretRenewed)) ∧
    ∀ (a : Agent) (s1 s2 : Secret), a.queue = WorkQueue.NewRateLimitingQueue →
      isTlsSecretWithAutoSync s1 = true → isTlsSecretWithAutoSync s2 = true → s1 ≠ s2 →
      ((a.secretsEventHandlerAdd s1).secretsEventHandlerAdd s2).queue.queue = [s1, s2] ∧
      (haveConcernedUpdate s1 s2 = true →
        ((a.secretsEventHandlerAdd s1).secretsEventHandlerUpdate s1 s2).queue.queue =
          [s1, s2]) := by
  refine ⟨by decide, ?_⟩
  intro a s1 s2 hq h1 h2 hne
  have hne2 : s2 ≠ s1 := fun h => hne h.symm
  obtain ⟨certDir, threadiness, queue⟩ := a
  simp only at hq
  subst hq
  refine ⟨?_, ?_⟩
  · simp [Agent.secretsEventHandlerAdd, h1, h2, WorkQueue.Add,
      WorkQueue.NewRateLimitingQueue, hne2]
  · intro hcu
    simp [Agent.secretsEventHandlerAdd, Agent.secretsEventHandlerUpdate, h1, hcu,
      WorkQueue.Add, WorkQueue.NewRateLimitingQueue, hne2]

/-! ## Paths -/

namespace path

theorem splitSlash_of_not_mem (m : List Char) (hm : '/' ∉ m) : splitSlash m = [m] := by
  induction m with
  | nil => rfl
  | cons c cs ih =>
    have hc : c ≠ '/' := fun h => hm (by simp [h])
    have hcs : '/' ∉ cs := fun h => hm (List.mem_cons_of_mem _ h)
    simp [splitSlash, hc, ih hcs]

theorem splitSlash_append (l : List Char) :
    ∃ init last, splitSlash l = init ++ [last] ∧
      ∀ m, '/' ∉ m → splitSlash (l ++ m) = init ++ [last ++ m] := by
  induction l with
  | nil =>
    refine ⟨[], [], rfl, ?_⟩
    intro m hm
    simpa using splitSlash_of_not_mem m hm
  | cons c cs ih =>
    obtain ⟨init, last, h1, h2⟩ := ih
    by_cases hc : c = '/'
    · refine ⟨[] :: init, last, ?_, ?_⟩
      · simp [splitSlash, hc, h1]
      · intro m hm
        simp [splitSlash, hc, h2 m hm]
    · cases init with
      | nil =>
        refine ⟨[], c :: last, ?_, ?_⟩
        · simp [splitSlash, hc, h1]
        · intro m hm
          have := h2 m hm
          simp only [List.nil_append] at this
          simp [splitSlash, hc, this]
      | cons i is =>
        refine ⟨(c :: i) :: is, last, ?_, ?_⟩
        · simp [splitSlash, hc, h1]
        · intro m hm
          have := h2 m hm
          simp only [List.cons_append] at this
          simp [splitSlash, hc, this]

theorem joinSlash_append_singleton (E : List (List Char)) (x : List Char) :
    ∃ pre, joinSlash (E ++ [x]) = pre ++ x := by
  induction E with
  | nil => exact ⟨[], rfl⟩
  | cons a rest ih =>
    obtain ⟨pre, hpre⟩ := ih
    cases rest with
    | nil => exact ⟨a ++ ['/'], by simp [joinSlash]⟩
    | cons b rest2 =>
      refine ⟨a ++ '/' :: pre, ?_⟩
      simp only [List.cons_append] at hpre ⊢
      simp [joinSlash, hpre]

/-- A cleaned path keeps a final element that is not empty, `.` or `..`: the
cleaned text of `l ++ ext` ends in `ext` when `ext` has no slash and at least
three characters. -/
theorem cleanChars_append_ext (l ext : List Char) (hs : '/' ∉ ext) (hlen : 3 ≤ ext.length) :
    ∃ pre, cleanChars (l ++ ext) = pre ++ ext := by
  have hne : l ++ ext ≠ [] := by
    intro h
    have := congrArg List.length h
    rw [List.length_append, List.length_nil] at this
    omega
  obtain ⟨init, last, -, h2⟩ := splitSlash_append l
  have hstep : ∀ r st, cleanStep r st (last ++ ext) = (last ++ ext) :: st := by
    intro r st
    have hl : 3 ≤ (last ++ ext).length := by
      simp
      omega
    have e1 : last ++ ext ≠ [] := by
      intro h
      rw [h] at hl
      simp at hl
    have e2 : last ++ ext ≠ ['.'] := by
      intro h
      rw [h] at hl
      simp at hl
    have e3 : last ++ ext ≠ ['.', '.'] := by
      intro h
      rw [h] at hl
      simp at hl
    simp [cleanStep, e1, e2, e3]
  have helems : ∀ r, cleanElems r (l ++ ext) =
      (init.foldl (cleanStep r) []).reverse ++ [last ++ ext] := by
    intro r
    simp [cleanElems, h2 ext hs, List.foldl_append, hstep]
  obtain ⟨pre, hpre⟩ := joinSlash_append_singleton
    ((init.foldl (cleanStep ((l ++ ext).head? == some '/')) []).reverse) (last ++ ext)
  unfold cleanChars render
  rw [if_neg hne, helems, hpre]
  by_cases hr : ((l ++ ext).head? == some '/') = true
  · rw [if_pos hr]
    exact ⟨'/' :: (pre ++ last), by simp⟩
  · rw [if_neg hr, if_neg (by simp)]
    exact ⟨pre ++ last, by simp⟩

theorem Join_ext (a n ext : String) (hs : '/' ∉ ext.data) (hlen : 3 ≤ ext.data.length) :
    ∃ pre, (Join a (n ++ ext)).data = pre ++ ext.data := by
  have hb : n ++ ext ≠ "" := by
    intro h
    have := congrArg (fun t => t.data.length) h
    have h0 : "".data.length = 0 := rfl
    simp only [String.data_append, List.length_append, h0] at this
    omega
  unfold Join Clean
  by_cases ha : a = ""
  · rw [if_pos ha, if_neg hb]
    simpa using cleanChars_append_ext n.data ext.data hs hlen
  · rw [if_neg ha, if_neg hb]
    have := cleanChars_append_ext (a.data ++ '/' :: n.data) ext.data hs hlen
    simpa using this

end path

theorem Agent.privateKeyPath_ne_certificatePath (a : Agent) (s : Secret) :
    a.privateKeyPath s ≠ a.certificatePath s := by
  obtain ⟨p1, h1⟩ := path.Join_ext (a.subdir s) s.Name ".key" (by decide) (by decide)
  obtain ⟨p2, h2⟩ := path.Join_ext (a.subdir s) s.Name ".crt" (by decide) (by decide)
  intro h
  unfold Agent.privateKeyPath Agent.certificatePath at h
  rw [h] at h1
  rw [h1] at h2
  have e1 : ".key".data = ['.', 'k', 'e'] ++ ['y'] := rfl
  have e2 : ".crt".data = ['.', 'c', 'r'] ++ ['t'] := rfl
  rw [e1, e2, ← List.append_assoc, ← List.append_assoc] at h2
  have := congrArg List.getLast? h2
  rw [List.getLast?_append, List.getLast?_append] at this
  simp at this

/-! ## Cleaned paths are stable -/

namespace path

theorem mem_splitSlash (p : List Char) : ∀ x ∈ splitSlash p, '/' ∉ x := by
  induction p with
  | nil => simp [splitSlash]
  | cons c cs ih =>
    by_cases hc : c = '/'
    · intro x hx
      simp only [splitSlash, hc, if_true, List.mem_cons] at hx
      rcases hx with h | h
      · simp [h]
      · exact ih x h
    · cases hs : splitSlash cs with
      | nil =>
        intro x hx
        simp only [splitSlash, hc, if_false, hs, List.mem_singleton] at hx
        subst hx
        simpa using fun h => hc h.symm
      | cons h t =>
        rw [hs] at ih
        intro x hx
        simp only [splitSlash, hc, if_false, hs, List.mem_cons] at hx
        rcases hx with h1 | h1
        · subst h1
          have := ih h (by simp)
          simp only [List.mem_cons, not_or]
          exact ⟨fun e => hc e.symm, this⟩
        · exact ih x (by simp [h1])

theorem splitSlash_elem_slash (a l : List Char) (ha : '/' ∉ a) :
    splitSlash (a ++ '/' :: l) = a :: splitSlash l := by
  induction a with
  | nil => simp [splitSlash]
  | cons c cs ih =>
    have hc : c ≠ '/' := fun h => ha (by simp [h])
    have hcs : '/' ∉ cs := fun h => ha (List.mem_cons_of_mem _ h)
    simp [splitSlash, hc, ih hcs]

theorem splitSlash_joinSlash (E : List (List Char)) (hE : E ≠ [])
    (hs : ∀ x ∈ E, '/' ∉ x) : splitSlash (joinSlash E) = E := by
  induction E with
  | nil => exact absurd rfl hE
  | cons a rest ih =>
    cases rest with
    | nil => simpa [joinSlash] using splitSlash_of_not_mem a (hs a (by simp))
    | cons b rest2 =>
      simp only [joinSlash]
      rw [splitSlash_elem_slash a _ (hs a (by simp)),
        ih (by simp) (fun x hx => hs x (List.mem_cons_of_mem _ hx))]

theorem splitSlash_append_elem (l m : List Char) (hm : '/' ∉ m) :
    splitSlash (l ++ '/' :: m) = splitSlash l ++ [m] := by
  induction l with
  | nil => simp [splitSlash, splitSlash_of_not_mem m hm]
  | cons c cs ih =>
    by_cases hc : c = '/'
    · simp [splitSlash, hc, ih]
    · cases hs : splitSlash cs with
      | nil =>
        obtain ⟨init, last, h1, -⟩ := splitSlash_append cs
        rw [hs] at h1
        simp at h1
      | cons h t =>
        rw [hs] at ih
        simp [splitSlash, hc, ih, hs]

theorem okStack_all (r : Bool) (st : List (List Char)) (h : okStack r st) :
    ∀ x ∈ st, x ≠ [] ∧ x ≠ ['.'] ∧ '/' ∉ x := by
  induction st with
  | nil => simp
  | cons x rest ih =>
    intro y hy
    rcases List.mem_cons.1 hy with e | e
    · rw [e]
      exact h.1
    · exact ih h.2.2 y e

theorem okStack_cleanStep (r : Bool) (st : List (List Char)) (x : List Char)
    (h : okStack r st) (hx : '/' ∉ x) : okStack r (cleanStep r st x) := by
  unfold cleanStep
  by_cases h1 : x = [] ∨ x = ['.']
  · rw [if_pos h1]
    exact h
  · rw [if_neg h1]
    have e1 : x ≠ [] := fun e => h1 (Or.inl e)
    have e2 : x ≠ ['.'] := fun e => h1 (Or.inr e)
    by_cases h2 : x = ['.', '.']
    · rw [if_pos h2]
      cases st with
      | nil =>
        cases r
        · exact ⟨⟨e1, e2, hx⟩, fun _ => ⟨rfl, by simp⟩, trivial⟩
        · exact trivial
      | cons top rest =>
        by_cases h3 : top = ['.', '.']
        · simp only [h3, if_true]
          rw [h3] at h
          obtain ⟨hr, hall⟩ := h.2.1 rfl
          refine ⟨⟨e1, e2, hx⟩, fun _ => ⟨hr, ?_⟩, h⟩
          intro y hy
          rcases List.mem_cons.1 hy with e | e
          · exact e
          · exact hall y e
        · simp only [h3, if_false]
          exact h.2.2
    · rw [if_neg h2]
      exact ⟨⟨e1, e2, hx⟩, fun e => absurd e h2, h⟩

theorem okStack_foldl (r : Bool) (elems st : List (List Char)) (h : okStack r st)
    (hs : ∀ x ∈ elems, '/' ∉ x) : okStack r (elems.foldl (cleanStep r) st) := by
  induction elems generalizing st with
  | nil => exact h
  | cons x rest ih =>
    exact ih _ (okStack_cleanStep r st x h (hs x (by simp)))
      (fun y hy => hs y (List.mem_cons_of_mem _ hy))

theorem foldl_reverse_of_okStack (r : Bool) (st : List (List Char)) (h : okStack r st) :
    st.reverse.foldl (cleanStep r) [] = st := by
  induction st with
  | nil => rfl
  | cons x rest ih =>
    rw [List.reverse_cons, List.foldl_append, ih h.2.2]
    obtain ⟨⟨e1, e2, -⟩, hdd, -⟩ := h
    simp only [List.foldl_cons, List.foldl_nil]
    unfold cleanStep
    rw [if_neg (by simp [e1, e2])]
    by_cases h2 : x = ['.', '.']
    · rw [if_pos h2]
      obtain ⟨hr, hall⟩ := hdd h2
      cases rest with
      | nil => simp [hr, h2]
      | cons top rest2 =>
        have : top = ['.', '.'] := hall top (by simp)
        simp [this, h2]
    · rw [if_neg h2]

end path

namespace path

theorem cleanChars_eq_render (p : List Char) (hp : p ≠ []) :
    ∃ r st, okStack r st ∧ cleanChars p = render r st.reverse := by
  refine ⟨p.head? == some '/', (splitSlash p).foldl (cleanStep (p.head? == some '/')) [],
    okStack_foldl _ _ _ trivial (mem_splitSlash p), ?_⟩
  simp [cleanChars, hp, cleanElems]

theorem joinSlash_cons_cons (c : Char) (cs : List Char) (rest : List (List Char)) :
    ∃ tail, joinSlash ((c :: cs) :: rest) = c :: tail := by
  cases rest with
  | nil => exact ⟨cs, rfl⟩
  | cons b rest2 => exact ⟨cs ++ '/' :: joinSlash (b :: rest2), rfl⟩

theorem render_head (r : Bool) (st : List (List Char)) (h : okStack r st) :
    ∃ c tail, render r st.reverse = c :: tail ∧ (c == '/') = r := by
  unfold render
  cases r with
  | true => exact ⟨'/', _, rfl, rfl⟩
  | false =>
    simp only [Bool.false_eq_true, if_false]
    by_cases he : st.reverse = []
    · rw [if_pos he]
      exact ⟨'.', [], rfl, by decide⟩
    · rw [if_neg he]
      cases hrev : st.reverse with
      | nil => exact absurd hrev he
      | cons a rest =>
        have ha : a ∈ st := by
          have : a ∈ st.reverse := by simp [hrev]
          simpa using this
        obtain ⟨e1, -, e3⟩ := okStack_all _ _ h a ha
        cases a with
        | nil => exact absurd rfl e1
        | cons c cs =>
          obtain ⟨tail, ht⟩ := joinSlash_cons_cons c cs rest
          refine ⟨c, tail, ht, ?_⟩
          have : c ≠ '/' := fun e => e3 (by simp [e])
          simpa using this

theorem foldl_splitSlash_render (r : Bool) (st : List (List Char)) (h : okStack r st) :
    (splitSlash (render r st.reverse)).foldl (cleanStep r) [] = st := by
  have hs : ∀ x ∈ st.reverse, '/' ∉ x := fun x hx =>
    (okStack_all _ _ h x (by simpa using hx)).2.2
  unfold render
  by_cases he : st.reverse = []
  · have hst : st = [] := by simpa using he
    subst hst
    cases r <;> simp [joinSlash, splitSlash, cleanStep]
  · have key := foldl_reverse_of_okStack r st h
    cases r with
    | true =>
      simp only [if_true, splitSlash, splitSlash_joinSlash _ he hs, List.foldl_cons]
      simpa [cleanStep] using key
    | false =>
      simp only [Bool.false_eq_true, if_false, he, splitSlash_joinSlash _ he hs]
      exact key

theorem length_joinSlash_snoc (E : List (List Char)) (x : List Char) :
    (joinSlash (E ++ [x])).length =
      (joinSlash E).length + x.length + (if E = [] then 0 else 1) := by
  induction E with
  | nil => simp [joinSlash]
  | cons a rest ih =>
    cases rest with
    | nil => simp [joinSlash]; omega
    | cons b rest2 =>
      have e : (a :: b :: rest2) ++ [x] = a :: ((b :: rest2) ++ [x]) := rfl
      have e2 : (b :: rest2) ++ [x] = b :: (rest2 ++ [x]) := rfl
      rw [e, e2]
      simp only [joinSlash, List.length_append, List.length_cons]
      rw [← e2, ih]
      simp
      omega

/-- Cleaning `q/x`, for a cleaned path `q` and one more element `x` that is not
empty, `.` or `..`, never gives `q` back. -/
theorem cleanChars_child_ne (p x : List Char) (hp : p ≠ []) (hx : '/' ∉ x)
    (hlen : 3 ≤ x.length) : cleanChars (cleanChars p ++ '/' :: x) ≠ cleanChars p := by
  obtain ⟨r, st, hok, heq⟩ := cleanChars_eq_render p hp
  rw [heq]
  obtain ⟨c, tail, hq, hc⟩ := render_head r st hok
  have hstep : cleanStep r st x = x :: st := by
    have e1 : x ≠ [] := by
      intro h
      rw [h] at hlen
      simp at hlen
    have e2 : x ≠ ['.'] := by
      intro h
      rw [h] at hlen
      simp at hlen
    have e3 : x ≠ ['.', '.'] := by
      intro h
      rw [h] at hlen
      simp at hlen
    simp [cleanStep, e1, e2, e3]
  have hroot : ((render r st.reverse ++ '/' :: x).head? == some '/') = r := by
    rw [hq]
    simpa using hc
  have hne : render r st.reverse ++ '/' :: x ≠ [] := by simp
  have hclean : cleanChars (render r st.reverse ++ '/' :: x) =
      render r (st.reverse ++ [x]) := by
    unfold cleanChars
    rw [if_neg hne, hroot]
    unfold cleanElems
    rw [splitSlash_append_elem _ _ hx, List.foldl_append, foldl_splitSlash_render r st hok]
    simp [hstep]
  rw [hclean]
  intro hc2
  have hl := congrArg List.length hc2
  unfold render at hl
  cases r with
  | true =>
    simp only [if_true, List.length_cons, length_joinSlash_snoc] at hl
    omega
  | false =>
    simp only [Bool.false_eq_true, if_false, List.append_eq_nil, List.cons_ne_nil, and_false,
      length_joinSlash_snoc] at hl
    by_cases he : st.reverse = []
    · simp [he, joinSlash] at hl
      omega
    · simp only [he, if_false] at hl
      omega

end path

namespace path

theorem cleanChars_ne_nil (p : List Char) : cleanChars p ≠ [] := by
  by_cases hp : p = []
  · simp [cleanChars, hp]
  · obtain ⟨r, st, hok, heq⟩ := cleanChars_eq_render p hp
    obtain ⟨c, tail, hq, -⟩ := render_head r st hok
    rw [heq, hq]
    simp

theorem Join_cases (a b : String) :
    Join a b = "" ∨ ∃ y : List Char, y ≠ [] ∧ (Join a b).data = cleanChars y := by
  have hdata : ∀ s : String, s ≠ "" → s.data ≠ [] := by
    intro s hs hd
    apply hs
    cases s
    simp only at hd
    subst hd
    rfl
  unfold Join Clean
  by_cases ha : a = ""
  · by_cases hb : b = ""
    · simp [ha, hb]
    · rw [if_pos ha, if_neg hb]
      exact Or.inr ⟨b.data, hdata b hb, rfl⟩
  · by_cases hb : b = ""
    · rw [if_neg ha, if_pos hb]
      exact Or.inr ⟨(a ++ "/").data, by simp, rfl⟩
    · rw [if_neg ha, if_neg hb]
      exact Or.inr ⟨(a ++ "/" ++ b).data, by simp, rfl⟩

theorem Join_child_ne_aux (d n ext : String)
    (hdir : d = "" ∨ ∃ y : List Char, y ≠ [] ∧ d.data = cleanChars y)
    (hn : '/' ∉ n.data) (hs : '/' ∉ ext.data) (hlen : 3 ≤ ext.data.length) :
    Join d (n ++ ext) ≠ d := by
  have h0 : "".data.length = 0 := rfl
  rcases hdir with h | ⟨y, hy, hd⟩
  · rw [h]
    obtain ⟨pre, hpre⟩ := Join_ext "" n ext hs hlen
    intro hc
    rw [hc] at hpre
    have := congrArg List.length hpre
    rw [List.length_append] at this
    omega
  · have hne : d ≠ "" := by
      intro hc
      rw [hc] at hd
      exact cleanChars_ne_nil y hd.symm
    have hb : n ++ ext ≠ "" := by
      intro h
      have := congrArg (fun t => t.data.length) h
      simp only [String.data_append, List.length_append, h0] at this
      omega
    intro hc
    have hc2 := congrArg String.data hc
    unfold Join at hc2
    rw [if_neg hne, if_neg hb] at hc2
    have hx : '/' ∉ n.data ++ ext.data := by
      simp only [List.mem_append, not_or]
      exact ⟨hn, hs⟩
    have hl : 3 ≤ (n.data ++ ext.data).length := by
      simp only [List.length_append]
      omega
    have key := cleanChars_child_ne y (n.data ++ ext.data) hy hx hl
    apply key
    rw [← hd]
    simpa [Clean] using hc2

/-- A file name without a slash, joined to a directory built by `Join`, is a
path different from the directory. -/
theorem Join_child_ne (a b n ext : String) (hn : '/' ∉ n.data) (hs : '/' ∉ ext.data)
    (hlen : 3 ≤ ext.data.length) : Join (Join a b) (n ++ ext) ≠ Join a b :=
  Join_child_ne_aux (Join a b) n ext (Join_cases a b) hn hs hlen

end path

theorem Agent.paths_ne_subdir (a : Agent) (s : Secret) (hn : '/' ∉ s.Name.data) :
    a.privateKeyPath s ≠ a.subdir s ∧ a.certificatePath s ≠ a.subdir s :=
  ⟨path.Join_child_ne a.certDir s.Namespace s.Name ".key" hn (by decide) (by decide),
   path.Join_child_ne a.certDir s.Namespace s.Name ".crt" hn (by decide) (by decide)⟩

/-! ## Filesystem states -/

theorem lookup_filter_ne {κ ν : Type} [DecidableEq κ] (l : List (κ × ν)) (k q : κ) :
    (l.filter (fun e => e.1 != k)).lookup q = if q = k then none else l.lookup q := by
  induction l with
  | nil => simp
  | cons e es ih =>
    obtain ⟨a, v⟩ := e
    by_cases hk : a = k
    · subst hk
      simp only [List.filter, bne_self_eq_false, ih, List.lookup_cons]
      by_cases hq : q = a
      · simp [hq]
      · have : (q == a) = false := by simpa using hq
        simp [hq, this]
    · have hk2 : (a != k) = true := by simpa using hk
      simp only [List.filter, hk2, List.lookup_cons, ih]
      by_cases hq : q = a
      · subst hq
        simp [hk]
      · have : (q == a) = false := by simpa using hq
        simp [this]

theorem lookup_cons_filter {κ ν : Type} [DecidableEq κ] (l : List (κ × ν)) (k q : κ) (v : ν) :
    ((k, v) :: l.filter (fun e => e.1 != k)).lookup q =
      if q = k then some v else l.lookup q := by
  rw [List.lookup_cons, lookup_filter_ne]
  by_cases hq : q = k
  · simp [hq]
  · have : (q == k) = false := by simpa using hq
    simp [hq, this]

theorem mem_of_lookup {κ ν : Type} [DecidableEq κ] (l : List (κ × ν)) (q : κ) (v : ν)
    (h : l.lookup q = some v) : (q, v) ∈ l := by
  induction l with
  | nil => simp at h
  | cons e es ih =>
    obtain ⟨a, u⟩ := e
    rw [List.lookup_cons] at h
    by_cases hq : q = a
    · subst hq
      simp at h
      simp [h]
    · have : (q == a) = false := by simpa using hq
      simp only [this] at h
      exact List.mem_cons_of_mem _ (ih h)

theorem le_foldr_max (l : List Nat) (x : Nat) (h : x ∈ l) : x ≤ l.foldr max 0 := by
  induction l with
  | nil => simp at h
  | cons a rest ih =>
    simp only [List.foldr_cons]
    rcases List.mem_cons.1 h with e | e
    · rw [e]
      exact Nat.le_max_left _ _
    · exact Nat.le_trans (ih e) (Nat.le_max_right _ _)

theorem FS.lt_nextIno_of_name (fs : FS) (q : String) (i : Nat)
    (h : fs.names.lookup q = some (.file i)) : i < fs.nextIno := by
  have hm := mem_of_lookup _ _ _ h
  have : i ∈ fs.names.map (fun x => x.2.ino) ++ fs.inodes.map (fun x => x.1) := by
    apply List.mem_append_left
    exact List.mem_map.2 ⟨(q, .file i), hm, rfl⟩
  have := le_foldr_max _ _ this
  unfold FS.nextIno
  omega

theorem FS.lt_nextIno_of_inode (fs : FS) (i : Nat) (n : Inode)
    (h : fs.inodes.lookup i = some n) : i < fs.nextIno := by
  have hm := mem_of_lookup _ _ _ h
  have : i ∈ fs.names.map (fun x => x.2.ino) ++ fs.inodes.map (fun x => x.1) := by
    apply List.mem_append_right
    exact List.mem_map.2 ⟨(i, n), hm, rfl⟩
  have := le_foldr_max _ _ this
  unfold FS.nextIno
  omega

theorem FS.link_eq_of_names (fs fs' : FS) (l : String)
    (hframe : ∀ q, q ≠ l → fs'.names.lookup q = fs.names.lookup q)
    (hl : fs.link l = none) (hl' : fs'.link l = none) : fs'.link = fs.link := by
  funext q
  by_cases hq : q = l
  · rw [hq, hl, hl']
  · unfold FS.link
    rw [hframe q hq]

theorem FS.follow_eq_of_link (fs fs' : FS) (h : fs'.link = fs.link) (p : String) :
    fs'.follow p = fs.follow p := by
  unfold FS.follow
  rw [h]

theorem FS.parent_error (fs : FS) (name : String) (e : Error)
    (h : fs.parent name = .error e) : e = .ENOENT ∨ e = .ENOTDIR ∨ e = .EACCES := by
  unfold FS.parent at h
  by_cases h0 : name = ""
  · simp [h0] at h
    exact Or.inl h.symm
  · rw [if_neg h0] at h
    cases hl : fs.names.lookup (path.Dir name) with
    | none =>
      simp [hl] at h
      exact Or.inl h.symm
    | some n =>
      cases n with
      | file i =>
        simp [hl] at h
        exact Or.inr (Or.inl h.symm)
      | symlink t =>
        simp [hl] at h
        exact Or.inr (Or.inl h.symm)
      | dir s wr =>
        cases s
        · simp [hl] at h
          exact Or.inr (Or.inr h.symm)
        · simp [hl] at h

theorem FS.parent_ok_iff (fs : FS) (name : String) (b : Bool) :
    fs.parent name = .ok b ↔
      name ≠ "" ∧ fs.names.lookup (path.Dir name) = some (.dir true b) := by
  unfold FS.parent
  by_cases h0 : name = ""
  · simp [h0]
  · rw [if_neg h0]
    cases hl : fs.names.lookup (path.Dir name) with
    | none => simp [h0]
    | some n =>
      cases n with
      | file i => simp [h0]
      | symlink t => simp [h0]
      | dir s wr =>
        cases s
        · simp [h0]
        · simp [h0]

theorem FS.step_refl (fs : FS) (l : String) (i : Nat)
    (h : fs.names.lookup l = some (.file i)) : fs.step fs l i :=
  ⟨Or.inl h, h, fun _ _ => rfl, fun _ _ => rfl⟩

theorem FS.step_link (fs fs' : FS) (l : String) (i : Nat) (h : fs.step fs' l i) :
    fs'.link = fs.link := by
  obtain ⟨h1, h2, h3, -⟩ := h
  apply FS.link_eq_of_names fs fs' l h3
  · unfold FS.link
    rcases h1 with e | ⟨e, -⟩ <;> rw [e]
  · unfold FS.link
    rw [h2]

theorem FS.step_follow (fs fs' : FS) (l : String) (i : Nat) (h : fs.step fs' l i)
    (p : String) : fs'.follow p = fs.follow p :=
  FS.follow_eq_of_link fs fs' (FS.step_link fs fs' l i h) p

theorem FS.step_names_mono (fs fs' : FS) (l : String) (i : Nat) (h : fs.step fs' l i)
    (q : String) (e : Entry) (hq : fs.names.lookup q = some e) :
    fs'.names.lookup q = some e := by
  obtain ⟨h1, h2, h3, -⟩ := h
  by_cases hql : q = l
  · subst hql
    rcases h1 with e1 | ⟨e1, -⟩
    · rw [e1] at hq
      rw [h2, hq]
    · rw [e1] at hq
      simp at hq
  · rw [h3 q hql]
    exact hq

theorem FS.step_parent (fs fs' : FS) (l : String) (i : Nat) (h : fs.step fs' l i)
    (q : String) (b : Bool) (hq : fs.parent q = .ok b) : fs'.parent q = .ok b := by
  rw [FS.parent_ok_iff] at hq ⊢
  exact ⟨hq.1, FS.step_names_mono fs fs' l i h _ _ hq.2⟩

theorem FS.step_present (fs fs' : FS) (l : String) (i : Nat) (h : fs.step fs' l i)
    (q : String) (hq : fs.present q) : fs'.present q := by
  obtain ⟨⟨b, hb⟩, hn⟩ := hq
  refine ⟨⟨b, FS.step_parent fs fs' l i h q b hb⟩, ?_⟩
  cases hl : fs.names.lookup q with
  | none => exact absurd hl hn
  | some e =>
    rw [FS.step_names_mono fs fs' l i h q e hl]
    simp

/-! ## `ensureFileData` -/

theorem ensureFileData_absent (p l : String) (d : Bytes) (w : World) (b : Bool)
    (hf : w.fs.follow p = .ok l) (hp : w.fs.parent l = .ok b)
    (hn : w.fs.names.lookup l = none) :
    ensureFileData p d w =
      if b then
        (none, { fs := (w.fs.setName l (.file w.fs.nextIno)).setInode w.fs.nextIno
                   (.regular d (!masked w.umask 0o400) (!masked w.umask 0o200)),
                 umask := w.umask,
                 trace := w.trace ++ [.Stat p, .WriteFile p d] })
      else
        (some .EACCES,
          { w with trace := w.trace ++ [.Stat p, .WriteFile p d] }) := by
  cases b <;>
    simp [ensureFileData, os.Stat, ioutil.WriteFile, World.record, hf, hp, hn,
      os.IsNotExist]

theorem ensureFileData_regular (p l : String) (d d0 : Bytes) (w : World) (b wr : Bool)
    (i : Nat) (hf : w.fs.follow p = .ok l) (hp : w.fs.parent l = .ok b)
    (hn : w.fs.names.lookup l = some (.file i))
    (hi : w.fs.inodes.lookup i = some (.regular d0 true wr)) :
    ensureFileData p d w =
      if d0 = d then
        (none, { w with trace := w.trace ++ [.Stat p, .ReadFile p] })
      else if wr then
        (none, { fs := w.fs.setInode i (.regular d true wr),
                 umask := w.umask,
                 trace := w.trace ++ [.Stat p, .ReadFile p, .WriteFile p d] })
      else
        (some .EACCES,
          { w with trace := w.trace ++ [.Stat p, .ReadFile p, .WriteFile p d] }) := by
  by_cases hd : d0 = d <;> cases wr <;>
    simp [ensureFileData, os.Stat, ioutil.ReadFile, ioutil.WriteFile, World.record,
      hf, hp, hn, hi, hd]

theorem ensureFileData_unreadable (p l : String) (d d0 : Bytes) (w : World) (b wr : Bool)
    (i : Nat) (hf : w.fs.follow p = .ok l) (hp : w.fs.parent l = .ok b)
    (hn : w.fs.names.lookup l = some (.file i))
    (hi : w.fs.inodes.lookup i = some (.regular d0 false wr)) :
    (ensureFileData p d w).1 = some .EACCES := by
  simp [ensureFileData, os.Stat, ioutil.ReadFile, World.record, hf, hp, hn, hi]

theorem ensureFileData_null (p l : String) (d : Bytes) (w : World) (b : Bool)
    (i : Nat) (hf : w.fs.follow p = .ok l) (hp : w.fs.parent l = .ok b)
    (hn : w.fs.names.lookup l = some (.file i))
    (hi : w.fs.inodes.lookup i = some .null) :
    (ensureFileData p d w).2.fs = w.fs ∧ (ensureFileData p d w).2.umask = w.umask := by
  by_cases hd : ([] : Bytes) = d <;>
    simp [ensureFileData, os.Stat, ioutil.ReadFile, ioutil.WriteFile, World.record,
      hf, hp, hn, hi, hd]

theorem ensureFileData_ok (p : String) (d : Bytes) (w w' : World)
    (h : ensureFileData p d w = (none, w')) :
    w'.umask = w.umask ∧
    ∃ l i, w.fs.follow p = .ok l ∧ (∃ b, w.fs.parent l = .ok b) ∧ w.fs.step w'.fs l i ∧
      ((∃ r wr, w'.fs.inodes.lookup i = some (.regular d r wr) ∧
          (masked w.umask 0o400 = false → r = true)) ∨
        (w.fs.names.lookup l = some (.file i) ∧ w.fs.inodes.lookup i = some .null ∧
          w'.fs = w.fs)) := by
  cases hf : w.fs.follow p with
  | error e =>
    cases e <;>
      simp [ensureFileData, os.Stat, ioutil.WriteFile, World.record, hf, os.IsNotExist] at h
  | ok l =>
    cases hp : w.fs.parent l with
    | error e =>
      cases e <;>
        simp [ensureFileData, os.Stat, ioutil.WriteFile, World.record, hf, hp,
          os.IsNotExist] at h
    | ok b =>
      cases hn : w.fs.names.lookup l with
      | none =>
        rw [ensureFileData_absent p l d w b hf hp hn] at h
        cases b
        · simp at h
        · simp only [if_true, Prod.mk.injEq, true_and] at h
          subst h
          refine ⟨rfl, l, w.fs.nextIno, rfl, ⟨_, hp⟩, ⟨Or.inr ⟨hn, rfl⟩, ?_, ?_, ?_⟩,
            Or.inl ⟨!masked w.umask 0o400, !masked w.umask 0o200, ?_, ?_⟩⟩
          · simp [FS.setInode, FS.setName, lookup_cons_filter]
          · intro q hq
            simp [FS.setInode, FS.setName, lookup_cons_filter, hq]
          · intro j hj
            simp [FS.setInode, FS.setName, lookup_cons_filter, hj]
          · simp [FS.setInode, lookup_cons_filter]
          · intro hm
            simp [hm]
      | some e =>
        cases e with
        | dir s wr =>
          simp [ensureFileData, os.Stat, ioutil.ReadFile, World.record, hf, hp, hn] at h
        | symlink t =>
          simp [ensureFileData, os.Stat, World.record, hf, hp, hn, os.IsNotExist] at h
        | file i =>
          cases hi : w.fs.inodes.lookup i with
          | none =>
            simp [ensureFileData, os.Stat, World.record, hf, hp, hn, hi, os.IsNotExist] at h
          | some n =>
            cases n with
            | null =>
              have := ensureFileData_null p l d w b i hf hp hn hi
              rw [h] at this
              simp only at this
              refine ⟨this.2, l, i, rfl, ⟨_, hp⟩, ?_, Or.inr ⟨hn, hi, this.1⟩⟩
              rw [this.1]
              exact FS.step_refl _ _ _ hn
            | regular d0 r0 w0 =>
              cases r0
              · have := ensureFileData_unreadable p l d d0 w b w0 i hf hp hn hi
                rw [h] at this
                simp at this
              · rw [ensureFileData_regular p l d d0 w b w0 i hf hp hn hi] at h
                by_cases hd : d0 = d
                · simp only [hd, if_true, Prod.mk.injEq, true_and] at h
                  subst h
                  subst hd
                  exact ⟨rfl, l, i, rfl, ⟨_, hp⟩, FS.step_refl _ _ _ hn,
                    Or.inl ⟨true, w0, hi, fun _ => rfl⟩⟩
                · cases w0
                  · simp [hd] at h
                  · simp only [hd, if_false, if_true, Prod.mk.injEq, true_and] at h
                    subst h
                    refine ⟨rfl, l, i, rfl, ⟨_, hp⟩, ⟨Or.inl hn, ?_, ?_, ?_⟩,
                      Or.inl ⟨true, true, ?_, fun _ => rfl⟩⟩
                    · simpa [FS.setInode] using hn
                    · intro q _
                      simp [FS.setInode]
                    · intro j hj
                      simp [FS.setInode, lookup_cons_filter, hj]
                    · simp [FS.setInode, lookup_cons_filter]

/-! ## `ensureCertificateDir` -/

theorem ensureCertificateDir_ok (dir : String) (w w' : World)
    (h : ensureCertificateDir dir w = (none, w')) :
    w'.umask = w.umask ∧ w'.fs.present dir ∧ w'.fs.link = w.fs.link ∧
    w'.fs.inodes = w.fs.inodes ∧
    (∀ q i, w'.fs.names.lookup q = some (.file i) → w.fs.names.lookup q = some (.file i)) := by
  unfold ensureCertificateDir os.Mkdir World.record at h
  cases hp : w.fs.parent dir with
  | error e =>
    rcases FS.parent_error _ _ _ hp with he | he | he <;> subst he <;>
      simp [hp, os.IsExist] at h
  | ok b =>
    cases hl : w.fs.names.lookup dir with
    | some n =>
      simp [hp, hl, os.IsExist] at h
      subst h
      exact ⟨rfl, ⟨⟨b, hp⟩, by simp [hl]⟩, rfl, rfl, fun _ _ hq => hq⟩
    | none =>
      cases b
      · simp [hp, hl, os.IsExist] at h
      · simp [hp, hl] at h
        subst h
        have hframe : ∀ q, q ≠ dir →
            (w.fs.setName dir (.dir (!masked w.umask 0o100) (!masked w.umask 0o200))).names.lookup
              q = w.fs.names.lookup q := by
          intro q hq
          simp [FS.setName, lookup_cons_filter, hq]
        have hnew : (w.fs.setName dir
            (.dir (!masked w.umask 0o100) (!masked w.umask 0o200))).names.lookup dir =
              some (.dir (!masked w.umask 0o100) (!masked w.umask 0o200)) := by
          simp [FS.setName, lookup_cons_filter]
        refine ⟨rfl, ⟨⟨true, ?_⟩, ?_⟩, ?_, rfl, ?_⟩
        · rw [FS.parent_ok_iff] at hp ⊢
          refine ⟨hp.1, ?_⟩
          have hd : path.Dir dir ≠ dir := by
            intro hc
            rw [hc, hl] at hp
            simp at hp
          simp only
          rw [hframe _ hd]
          exact hp.2
        · simp only
          rw [hnew]
          simp
        · apply FS.link_eq_of_names _ _ dir hframe
          · simp [FS.link, hl]
          · simp only [FS.link]
            rw [hnew]
        · intro q i hq
          simp only at hq
          by_cases hqd : q = dir
          · rw [hqd, hnew] at hq
            simp at hq
          · rw [hframe q hqd] at hq
            exact hq

theorem ensureCertificateDir_present (dir : String) (w : World) (h : w.fs.present dir) :
    ensureCertificateDir dir w = (none, { w with trace := w.trace ++ [.Mkdir dir] }) := by
  obtain ⟨⟨b, hb⟩, hl⟩ := h
  unfold ensureCertificateDir os.Mkdir World.record
  cases hn : w.fs.names.lookup dir with
  | none => exact absurd hn hl
  | some n => simp [hb, os.IsExist]

/-! ## Paths that lead to one file -/

theorem FS.apart_iff (fs : FS) (p q : String) :
    fs.apart p q = true ↔
      ∀ lp lq, fs.follow p = .ok lp → fs.follow q = .ok lq →
        lp ≠ lq ∧ ∀ i j, fs.names.lookup lp = some (.file i) →
          fs.names.lookup lq = some (.file j) → i ≠ j := by
  unfold FS.apart
  cases hp : fs.follow p with
  | error e => simp
  | ok lp =>
    cases hq : fs.follow q with
    | error e => simp
    | ok lq =>
      simp only [Bool.and_eq_true, bne_iff_ne, ne_eq]
      constructor
      · rintro ⟨h1, h2⟩ lp' lq' e1 e2
        injection e1 with e1
        injection e2 with e2
        subst e1
        subst e2
        refine ⟨h1, ?_⟩
        intro i j hi hj
        rw [hi, hj] at h2
        simpa using h2
      · intro h
        obtain ⟨h1, h2⟩ := h lp lq rfl rfl
        refine ⟨h1, ?_⟩
        split
        · rename_i i j hi hj
          simpa using h2 i j hi hj
        · rfl

theorem FS.plain_iff (fs : FS) (p : String) :
    fs.plain p = true ↔
      ∀ l i, fs.follow p = .ok l → fs.names.lookup l = some (.file i) →
        fs.inodes.lookup i ≠ some .null := by
  unfold FS.plain
  cases hp : fs.follow p with
  | error e => simp
  | ok l =>
    simp only
    constructor
    · intro h l' i e1 hi
      injection e1 with e1
      subst e1
      rw [hi] at h
      simp only at h
      intro hc
      rw [hc] at h
      simp at h
    · intro h
      split
      · rename_i i hi
        split
        · rename_i hn
          exact absurd hn (h l i rfl hi)
        · rfl
      · rfl

/-! ## `ensureCertificateSynchronized` -/

theorem sync_success (a : Agent) (s : Secret) (w : World)
    (h : (a.ensureCertificateSynchronized s w).1 = none) :
    ∃ w1 w2, ensureCertificateDir (a.subdir s) w = (none, w1) ∧
      ensureFileData (a.privateKeyPath s) (s.data TLSPrivateKeyKey) w1 = (none, w2) ∧
      ensureFileData (a.certificatePath s) (s.data TLSCertKey) w2 =
        (none, (a.ensureCertificateSynchronized s w).2) := by
  unfold Agent.ensureCertificateSynchronized at h ⊢
  split at h
  · simp at h
  · rename_i w1 hd
    split at h
    · simp at h
    · rename_i w2 hk
      split at h
      · simp at h
      · rename_i w3 hc
        refine ⟨w1, w2, hd, hk, ?_⟩
        simp [hd, hk, hc]

theorem sync_post (a : Agent) (s : Secret) (w : World)
    (h : (a.ensureCertificateSynchronized s w).1 = none)
    (ha : w.fs.apart (a.privateKeyPath s) (a.certificatePath s) = true)
    (hk : w.fs.plain (a.privateKeyPath s) = true)
    (hc : w.fs.plain (a.certificatePath s) = true) :
    (a.ensureCertificateSynchronized s w).2.umask = w.umask ∧
    ∃ rk rc, (a.ensureCertificateSynchronized s w).2.fs.synced (a.subdir s)
        (a.privateKeyPath s) (a.certificatePath s)
        (s.data TLSPrivateKeyKey) (s.data TLSCertKey) rk rc ∧
      (masked w.umask 0o400 = false → rk = true ∧ rc = true) := by
  obtain ⟨w1, w2, hd, hk2, hc2⟩ := sync_success a s w h
  generalize (a.ensureCertificateSynchronized s w).2 = w3 at hc2 ⊢
  obtain ⟨hu1, hpres1, hlink1, hino1, hfile1⟩ := ensureCertificateDir_ok _ _ _ hd
  obtain ⟨hu2, lk, ik, hfk, ⟨bk, hpk⟩, hstepk, hresk⟩ := ensureFileData_ok _ _ _ _ hk2
  obtain ⟨hu3, lc, ic, hfc, ⟨bc, hpc⟩, hstepc, hresc⟩ := ensureFileData_ok _ _ _ _ hc2
  have hfk0 : w.fs.follow (a.privateKeyPath s) = .ok lk := by
    rw [← FS.follow_eq_of_link _ _ hlink1]
    exact hfk
  have hfc1 : w1.fs.follow (a.certificatePath s) = .ok lc := by
    rw [← FS.step_follow _ _ _ _ hstepk]
    exact hfc
  have hfc0 : w.fs.follow (a.certificatePath s) = .ok lc := by
    rw [← FS.follow_eq_of_link _ _ hlink1]
    exact hfc1
  obtain ⟨hne, hdisj⟩ := (FS.apart_iff _ _ _).1 ha lk lc hfk0 hfc0
  have hregk : ∃ rk wk, w2.fs.inodes.lookup ik =
      some (.regular (s.data TLSPrivateKeyKey) rk wk) ∧
      (masked w1.umask 0o400 = false → rk = true) := by
    rcases hresk with h1 | ⟨hn, hi, -⟩
    · exact h1
    · exfalso
      apply (FS.plain_iff _ _).1 hk lk ik hfk0 (hfile1 _ _ hn)
      rw [← hino1]
      exact hi
  have hback : ∀ j, w2.fs.names.lookup lc = some (.file j) →
      w1.fs.names.lookup lc = some (.file j) := by
    intro j hj
    rw [← hstepk.2.2.1 lc (Ne.symm hne)]
    exact hj
  have hkey_vs : ∀ j, w1.fs.names.lookup lc = some (.file j) → ik ≠ j := by
    intro j hj
    rcases hstepk.1 with e | ⟨-, e⟩
    · exact hdisj ik j (hfile1 _ _ e) (hfile1 _ _ hj)
    · have := FS.lt_nextIno_of_name _ _ _ hj
      omega
  have hneq : ik ≠ ic := by
    rcases hstepc.1 with e | ⟨-, e⟩
    · exact hkey_vs ic (hback ic e)
    · obtain ⟨rk, wk, hik, -⟩ := hregk
      have := FS.lt_nextIno_of_inode _ _ _ hik
      omega
  have hregc : ∃ rc wc, w3.fs.inodes.lookup ic =
      some (.regular (s.data TLSCertKey) rc wc) ∧
      (masked w2.umask 0o400 = false → rc = true) := by
    rcases hresc with h1 | ⟨hn, hi, -⟩
    · exact h1
    · exfalso
      have h1 := hback ic hn
      have h2 : w1.fs.inodes.lookup ic = some .null := by
        rw [← hstepk.2.2.2 ic (Ne.symm hneq)]
        exact hi
      apply (FS.plain_iff _ _).1 hc lc ic hfc0 (hfile1 _ _ h1)
      rw [← hino1]
      exact h2
  obtain ⟨rk, wk, hik, hrk⟩ := hregk
  obtain ⟨rc, wc, hic, hrc⟩ := hregc
  refine ⟨hu3.trans (hu2.trans hu1), rk, rc, ⟨?_, lk, ik, lc, ic, wk, wc, ?_, ?_, hne, hneq,
    ?_, hic⟩, ?_⟩
  · exact FS.step_present _ _ _ _ hstepc _ (FS.step_present _ _ _ _ hstepk _ hpres1)
  · refine ⟨?_, ⟨bk, ?_⟩, ?_⟩
    · rw [FS.step_follow _ _ _ _ hstepc, FS.step_follow _ _ _ _ hstepk]
      exact hfk
    · exact FS.step_parent _ _ _ _ hstepc _ _ (FS.step_parent _ _ _ _ hstepk _ _ hpk)
    · rw [hstepc.2.2.1 lk hne]
      exact hstepk.2.1
  · refine ⟨?_, ⟨bc, ?_⟩, hstepc.2.1⟩
    · rw [FS.step_follow _ _ _ _ hstepc]
      exact hfc
    · exact FS.step_parent _ _ _ _ hstepc _ _ hpc
  · rw [hstepc.2.2.2 ik hneq]
    exact hik
  · intro hm
    refine ⟨hrk ?_, hrc ?_⟩
    · rw [hu1]
      exact hm
    · rw [hu2, hu1]
      exact hm

theorem FS.synced_apart_plain (fs : FS) (sub key crt : String) (kd cd : Bytes)
    (rk rc : Bool) (h : fs.synced sub key crt kd cd rk rc) :
    fs.apart key crt = true ∧ fs.plain key = true ∧ fs.plain crt = true := by
  obtain ⟨-, lk, ik, lc, ic, wk, wc, ⟨hfk, -, hnk⟩, ⟨hfc, -, hnc⟩, hne, hneq, hik, hic⟩ := h
  refine ⟨(FS.apart_iff _ _ _).2 ?_, (FS.plain_iff _ _).2 ?_, (FS.plain_iff _ _).2 ?_⟩
  · intro lp lq e1 e2
    rw [hfk] at e1
    rw [hfc] at e2
    injection e1 with e1
    injection e2 with e2
    subst e1
    subst e2
    refine ⟨hne, ?_⟩
    intro i j hi hj
    rw [hnk] at hi
    rw [hnc] at hj
    injection hi with hi
    injection hj with hj
    injection hi with hi
    injection hj with hj
    subst hi
    subst hj
    exact hneq
  · intro l i e1 hi
    rw [hfk] at e1
    injection e1 with e1
    subst e1
    rw [hnk] at hi
    injection hi with hi
    injection hi with hi
    subst hi
    rw [hik]
    simp
  · intro l i e1 hi
    rw [hfc] at e1
    injection e1 with e1
    subst e1
    rw [hnc] at hi
    injection hi with hi
    injection hi with hi
    subst hi
    rw [hic]
    simp

theorem ensureFileData_on_stored (p l : String) (i : Nat) (d d0 : Bytes) (r wr : Bool)
    (w w' : World) (hd : w.fs.denotes p l i)
    (hi : w.fs.inodes.lookup i = some (.regular d0 r wr))
    (h : ensureFileData p d w = (none, w')) :
    w'.trace = w.trace ++ ([.Stat p, .ReadFile p] ++
      (if d0 = d then [] else [.WriteFile p d])) := by
  obtain ⟨hf, ⟨b, hb⟩, hn⟩ := hd
  cases r
  · have := ensureFileData_unreadable p l d d0 w b wr i hf hb hn hi
    rw [h] at this
    simp at this
  · rw [ensureFileData_regular p l d d0 w b wr i hf hb hn hi] at h
    by_cases hdd : d0 = d
    · simp only [hdd, if_true, Prod.mk.injEq, true_and] at h
      subst h
      simp [hdd]
    · cases wr
      · simp [hdd] at h
      · simp only [hdd, if_false, if_true, Prod.mk.injEq, true_and] at h
        subst h
        simp [hdd]

theorem ensureFileData_keeps (p l : String) (i : Nat) (d : Bytes) (w w' : World)
    (hd : w.fs.denotes p l i) (h : ensureFileData p d w = (none, w'))
    (q lq : String) (iq : Nat) (hq : w.fs.denotes q lq iq) (hne : lq ≠ l) (hni : iq ≠ i) :
    w'.fs.denotes q lq iq ∧ w'.fs.inodes.lookup iq = w.fs.inodes.lookup iq := by
  obtain ⟨-, l', i', hf', -, hstep, -⟩ := ensureFileData_ok _ _ _ _ h
  obtain ⟨hf, -, hn⟩ := hd
  rw [hf] at hf'
  injection hf' with hl
  subst hl
  have hi' : i' = i := by
    rcases hstep.1 with e | ⟨e, -⟩
    · rw [hn] at e
      injection e with e
      injection e with e
      exact e.symm
    · rw [hn] at e
      simp at e
  subst hi'
  obtain ⟨hfq, ⟨bq, hbq⟩, hnq⟩ := hq
  refine ⟨⟨?_, ⟨bq, FS.step_parent _ _ _ _ hstep _ _ hbq⟩, ?_⟩, hstep.2.2.2 iq hni⟩
  · rw [FS.step_follow _ _ _ _ hstep]
    exact hfq
  · rw [hstep.2.2.1 lq hne]
    exact hnq

theorem sync_on_synced (a : Agent) (s : Secret) (w : World)
    (h : w.fs.synced (a.subdir s) (a.privateKeyPath s) (a.certificatePath s)
      (s.data TLSPrivateKeyKey) (s.data TLSCertKey) true true) :
    a.ensureCertificateSynchronized s w =
      (none, { w with trace := w.trace ++
        [.Mkdir (a.subdir s), .Stat (a.privateKeyPath s), .ReadFile (a.privateKeyPath s),
         .Stat (a.certificatePath s), .ReadFile (a.certificatePath s)] }) := by
  obtain ⟨hs, lk, ik, lc, ic, wk, wc, ⟨hfk, ⟨bk, hbk⟩, hnk⟩, ⟨hfc, ⟨bc, hbc⟩, hnc⟩, -, -,
    hik, hic⟩ := h
  unfold Agent.ensureCertificateSynchronized
  rw [ensureCertificateDir_present _ _ hs]
  simp only
  rw [ensureFileData_regular _ lk _ _
    { fs := w.fs, umask := w.umask, trace := w.trace ++ [.Mkdir (a.subdir s)] }
    bk wk ik hfk hbk hnk hik]
  simp only [if_true]
  rw [ensureFileData_regular _ lc _ _
    { fs := w.fs, umask := w.umask, trace := w.trace ++ [.Mkdir (a.subdir s)] ++
        [.Stat (a.privateKeyPath s), .ReadFile (a.privateKeyPath s)] }
    bc wc ic hfc hbc hnc hic]
  simp

theorem sync_trace_on_synced (a : Agent) (s : Secret) (w : World) (kd cd : Bytes)
    (rk rc : Bool)
    (hs : w.fs.synced (a.subdir s) (a.privateKeyPath s) (a.certificatePath s) kd cd rk rc)
    (h : (a.ensureCertificateSynchronized s w).1 = none) :
    (a.ensureCertificateSynchronized s w).2.trace = w.trace ++
      ([.Mkdir (a.subdir s), .Stat (a.privateKeyPath s), .ReadFile (a.privateKeyPath s)] ++
        (if kd = s.data TLSPrivateKeyKey then []
          else [.WriteFile (a.privateKeyPath s) (s.data TLSPrivateKeyKey)]) ++
        [.Stat (a.certificatePath s), .ReadFile (a.certificatePath s)] ++
        (if cd = s.data TLSCertKey then []
          else [.WriteFile (a.certificatePath s) (s.data TLSCertKey)])) := by
  obtain ⟨w1, w2, hd, hk2, hc2⟩ := sync_success a s w h
  obtain ⟨hpres, lk, ik, lc, ic, wk, wc, hdk, hdc, hne, hneq, hik, hic⟩ := hs
  rw [ensureCertificateDir_present _ _ hpres] at hd
  simp only [Prod.mk.injEq, true_and] at hd
  subst hd
  have t2 := ensureFileData_on_stored _ lk ik _ kd rk wk
    { fs := w.fs, umask := w.umask, trace := w.trace ++ [.Mkdir (a.subdir s)] } _ hdk hik hk2
  obtain ⟨hdc2, hic2⟩ := ensureFileData_keeps _ lk ik _
    { fs := w.fs, umask := w.umask, trace := w.trace ++ [.Mkdir (a.subdir s)] } _ hdk hk2
    _ lc ic hdc (Ne.symm hne) (Ne.symm hneq)
  have t3 := ensureFileData_on_stored _ lc ic _ cd rc wc _ _ hdc2 (hic2.trans hic) hc2
  rw [t3, t2]
  simp

theorem FS.synced_contents (fs : FS) (sub key crt : String) (kd cd : Bytes)
    (rk rc : Bool) (h : fs.synced sub key crt kd cd rk rc) :
    fs.contents key = some kd ∧ fs.contents crt = some cd := by
  obtain ⟨-, lk, ik, lc, ic, wk, wc, ⟨hfk, -, hnk⟩, ⟨hfc, -, hnc⟩, -, -, hik, hic⟩ := h
  constructor
  · simp [FS.contents, hfk, hnk, hik]
  · simp [FS.contents, hfc, hnc, hic]

theorem callsSince_of_trace (w w' : World) (delta : List Call)
    (h : w'.trace = w.trace ++ delta) : callsSince w w' = delta := by
  simp [callsSince, h]

theorem FS.synced_ReadFile (w : World) (sub key crt : String) (kd cd : Bytes)
    (h : w.fs.synced sub key crt kd cd true true) :
    (ioutil.ReadFile key w).1 = .ok kd ∧ (ioutil.ReadFile crt w).1 = .ok cd := by
  obtain ⟨-, lk, ik, lc, ic, wk, wc, ⟨hfk, ⟨bk, hbk⟩, hnk⟩, ⟨hfc, ⟨bc, hbc⟩, hnc⟩, -, -,
    hik, hic⟩ := h
  constructor
  · simp [ioutil.ReadFile, hfk, hbk, hnk, hik]
  · simp [ioutil.ReadFile, hfc, hbc, hnc, hic]

/-- C3 fails where the two paths lead to one file or to a device. With `foo.key`
and `foo.crt` hard links to one file, and with `foo.key` a symbolic link to
`foo.crt`, `ensureCertificateSynchronized` returns no error and the `.key` path
holds the certificate bytes; with `foo.key` the null device it returns no
error and the `.key` path holds nothing. -/
theorem sync_shared_file_counterexample :
    fooSecret.data TLSPrivateKeyKey = bytesOf "privatekeydata" ∧
    ((exampleAgent.ensureCertificateSynchronized fooSecret hardLinkedWorld).1 = none ∧
      (exampleAgent.ensureCertificateSynchronized fooSecret hardLinkedWorld).2.fs.contents
        "/certs/kube-system/foo.key" = some (bytesOf "certificatedata")) ∧
    ((exampleAgent.ensureCertificateSynchronized fooSecret symLinkedWorld).1 = none ∧
      (exampleAgent.ensureCertificateSynchronized fooSecret symLinkedWorld).2.fs.contents
        "/certs/kube-system/foo.key" = some (bytesOf "certificatedata")) ∧
    ((exampleAgent.ensureCertificateSynchronized fooSecret deviceWorld).1 = none ∧
      (exampleAgent.ensureCertificateSynchronized fooSecret deviceWorld).2.fs.contents
        "/certs/kube-system/foo.key" = some []) := by
  decide

/-- C3, amended: in a filesystem state where the `.key` and the `.crt` path do
not lead to one file (neither through symbolic links nor as hard links of one
inode) and neither leads to a device, if `ensureCertificateSynchronized`
returns no error then afterwards `<certDir>/<namespace>/<name>.key` is a
regular file whose contents are exactly the secret's `tls.key` bytes and
`<certDir>/<namespace>/<name>.crt` is a regular file whose contents are exactly
the secret's `tls.crt` bytes; unless the umask takes the owner's read
permission away, reading either file gives these bytes. -/
theorem sync_writes_both_files (a : Agent) (s : Secret) (w : World)
    (h : (a.ensureCertificateSynchronized s w).1 = none)
    (hapart : w.fs.apart (path.Join (path.Join a.certDir s.Namespace) (s.Name ++ ".key"))
      (path.Join (path.Join a.certDir s.Namespace) (s.Name ++ ".crt")) = true)
    (hkey : w.fs.plain (path.Join (path.Join a.certDir s.Namespace) (s.Name ++ ".key")) = true)
    (hcrt : w.fs.plain (path.Join (path.Join a.certDir s.Namespace) (s.Name ++ ".crt")) = true) :
    (a.ensureCertificateSynchronized s w).2.fs.contents
        (path.Join (path.Join a.certDir s.Namespace) (s.Name ++ ".key")) =
      some ((s.Data.lookup TLSPrivateKeyKey).getD []) ∧
    (a.ensureCertificateSynchronized s w).2.fs.contents
        (path.Join (path.Join a.certDir s.Namespace) (s.Name ++ ".crt")) =
      some ((s.Data.lookup TLSCertKey).getD []) ∧
    (masked w.umask 0o400 = false →
      (ioutil.ReadFile (path.Join (path.Join a.certDir s.Namespace) (s.Name ++ ".key"))
          (a.ensureCertificateSynchronized s w).2).1 =
        .ok ((s.Data.lookup TLSPrivateKeyKey).getD []) ∧
      (ioutil.ReadFile (path.Join (path.Join a.certDir s.Namespace) (s.Name ++ ".crt"))
          (a.ensureCertificateSynchronized s w).2).1 =
        .ok ((s.Data.lookup TLSCertKey).getD [])) := by
  obtain ⟨-, rk, rc, hsync, hr⟩ := sync_post a s w h hapart hkey hcrt
  obtain ⟨c1, c2⟩ := FS.synced_contents _ _ _ _ _ _ _ _ hsync
  refine ⟨c1, c2, ?_⟩
  intro hm
  obtain ⟨e1, e2⟩ := hr hm
  subst e1
  subst e2
  exact FS.synced_ReadFile _ _ _ _ _ _ hsync

/-- The end-to-end scenario of C3: the secret `kube-system/foo` synchronized
into `/certs`, where neither file exists yet. -/
theorem sync_writes_both_files_witness :
    ((exampleAgent.ensureCertificateSynchronized fooSecret exampleWorld).1 = none ∧
      exampleWorld.fs.apart "/certs/kube-system/foo.key" "/certs/kube-system/foo.crt" = true ∧
      exampleWorld.fs.plain "/certs/kube-system/foo.key" = true ∧
      exampleWorld.fs.plain "/certs/kube-system/foo.crt" = true) ∧
    ((exampleAgent.ensureCertificateSynchronized fooSecret exampleWorld).2.fs.contents
        "/certs/kube-system/foo.key" = some (bytesOf "privatekeydata") ∧
      (exampleAgent.ensureCertificateSynchronized fooSecret exampleWorld).2.fs.contents
        "/certs/kube-system/foo.crt" = some (bytesOf "certificatedata") ∧
      (masked exampleWorld.umask 0o400 = false →
        (ioutil.ReadFile "/certs/kube-system/foo.key"
          (exampleAgent.ensureCertificateSynchronized fooSecret exampleWorld).2).1 =
            .ok (bytesOf "privatekeydata") ∧
        (ioutil.ReadFile "/certs/kube-system/foo.crt"
          (exampleAgent.ensureCertificateSynchronized fooSecret exampleWorld).2).1 =
            .ok (bytesOf "certificatedata"))) :=
  ⟨⟨by decide, by decide, by decide, by decide⟩,
   sync_writes_both_files exampleAgent fooSecret exampleWorld (by decide) (by decide)
     (by decide) (by decide)⟩

/-- C4 fails under a umask that takes the owner's read permission away, and
where the two paths lead to one file. Under umask `0400` the first
synchronization of `kube-system/foo` returns no error and the second fails with
`EACCES` when it reads the file the first one created. With `foo.key` and
`foo.crt` hard links to one file both calls return no error and the second
makes two `WriteFile` calls; with `foo.key` the null device both calls return
no error and the second makes one `WriteFile` call. -/
theorem sync_twice_counterexample :
    ((exampleAgent.ensureCertificateSynchronized fooSecret unreadableWorld).1 = none ∧
      (exampleAgent.ensureCertificateSynchronized fooSecret
        (exampleAgent.ensureCertificateSynchronized fooSecret unreadableWorld).2).1 =
          some .EACCES) ∧
    ((exampleAgent.ensureCertificateSynchronized fooSecret hardLinkedWorld).1 = none ∧
      (exampleAgent.ensureCertificateSynchronized fooSecret
        (exampleAgent.ensureCertificateSynchronized fooSecret hardLinkedWorld).2).1 = none ∧
      writes (callsSince (exampleAgent.ensureCertificateSynchronized fooSecret hardLinkedWorld).2
        (exampleAgent.ensureCertificateSynchronized fooSecret
          (exampleAgent.ensureCertificateSynchronized fooSecret hardLinkedWorld).2).2) = 2) ∧
    ((exampleAgent.ensureCertificateSynchronized fooSecret deviceWorld).1 = none ∧
      (exampleAgent.ensureCertificateSynchronized fooSecret
        (exampleAgent.ensureCertificateSynchronized fooSecret deviceWorld).2).1 = none ∧
      writes (callsSince (exampleAgent.ensureCertificateSynchronized fooSecret deviceWorld).2
        (exampleAgent.ensureCertificateSynchronized fooSecret
          (exampleAgent.ensureCertificateSynchronized fooSecret deviceWorld).2).2) = 1) := by
  decide

/-- C4, amended: in a filesystem state where the `.key` and the `.crt` path do
not lead to one file and neither leads to a device, and under a umask that
leaves the owner's read permission, if `ensureCertificateSynchronized` succeeds
and is called again on the resulting world with the same secret, the second
call succeeds, leaves the filesystem state unchanged and makes no `WriteFile`
call: it makes exactly the calls `Mkdir`, `Stat`, `ReadFile`, `Stat`,
`ReadFile`. -/
theorem sync_idempotent (a : Agent) (s : Secret) (w : World)
    (h : (a.ensureCertificateSynchronized s w).1 = none)
    (hapart : w.fs.apart (a.privateKeyPath s) (a.certificatePath s) = true)
    (hkey : w.fs.plain (a.privateKeyPath s) = true)
    (hcrt : w.fs.plain (a.certificatePath s) = true)
    (humask : masked w.umask 0o400 = false) :
    (a.ensureCertificateSynchronized s (a.ensureCertificateSynchronized s w).2).1 = none ∧
    (a.ensureCertificateSynchronized s (a.ensureCertificateSynchronized s w).2).2.fs =
      (a.ensureCertificateSynchronized s w).2.fs ∧
    writes (callsSince (a.ensureCertificateSynchronized s w).2
      (a.ensureCertificateSynchronized s (a.ensureCertificateSynchronized s w).2).2) = 0 ∧
    callsSince (a.ensureCertificateSynchronized s w).2
      (a.ensureCertificateSynchronized s (a.ensureCertificateSynchronized s w).2).2 =
      [.Mkdir (a.subdir s), .Stat (a.privateKeyPath s), .ReadFile (a.privateKeyPath s),
       .Stat (a.certificatePath s), .ReadFile (a.certificatePath s)] := by
  obtain ⟨-, rk, rc, hsync, hr⟩ := sync_post a s w h hapart hkey hcrt
  obtain ⟨e1, e2⟩ := hr humask
  subst e1
  subst e2
  rw [sync_on_synced a s _ hsync]
  refine ⟨rfl, rfl, ?_, ?_⟩
  · simp [callsSince, writes]
  · simp [callsSince]

/-- The scenario `kube-system/foo` synchronized twice under umask `022`, for
C4. -/
theorem sync_idempotent_witness :
    ((exampleAgent.ensureCertificateSynchronized fooSecret exampleWorld).1 = none ∧
      exampleWorld.fs.apart (exampleAgent.privateKeyPath fooSecret)
        (exampleAgent.certificatePath fooSecret) = true ∧
      exampleWorld.fs.plain (exampleAgent.privateKeyPath fooSecret) = true ∧
      exampleWorld.fs.plain (exampleAgent.certificatePath fooSecret) = true ∧
      masked exampleWorld.umask 0o400 = false) ∧
    ((exampleAgent.ensureCertificateSynchronized fooSecret
        (exampleAgent.ensureCertificateSynchronized fooSecret exampleWorld).2).1 = none ∧
      (exampleAgent.ensureCertificateSynchronized fooSecret
        (exampleAgent.ensureCertificateSynchronized fooSecret exampleWorld).2).2.fs =
        (exampleAgent.ensureCertificateSynchronized fooSecret exampleWorld).2.fs ∧
      writes (callsSince (exampleAgent.ensureCertificateSynchronized fooSecret exampleWorld).2
        (exampleAgent.ensureCertificateSynchronized fooSecret
          (exampleAgent.ensureCertificateSynchronized fooSecret exampleWorld).2).2) = 0 ∧
      callsSince (exampleAgent.ensureCertificateSynchronized fooSecret exampleWorld).2
        (exampleAgent.ensureCertificateSynchronized fooSecret
          (exampleAgent.ensureCertificateSynchronized fooSecret exampleWorld).2).2 =
        [.Mkdir "/certs/kube-system", .Stat "/certs/kube-system/foo.key",
         .ReadFile "/certs/kube-system/foo.key", .Stat "/certs/kube-system/foo.crt",
         .ReadFile "/certs/kube-system/foo.crt"]) :=
  ⟨⟨by decide, by decide, by decide, by decide, by decide⟩,
   sync_idempotent exampleAgent fooSecret exampleWorld (by decide) (by decide) (by decide)
     (by decide) (by decide)⟩

/-- C9 fails where the two paths lead to one file or to a device. The secret
`kube-system/foo` is synchronized and then synchronized again after a renewal
of the key only, and both calls return no error. With `foo.key` and `foo.crt`
hard links to one file the `.key` path ends holding the certificate bytes and
not the renewed key, and the second call writes the `.crt` file although its
payload did not change. With `foo.key` the null device the `.key` path ends
holding nothing. -/
theorem sync_converges_counterexample :
    fooSecret.Namespace = fooSecretNewKey.Namespace ∧
    fooSecret.Name = fooSecretNewKey.Name ∧
    fooSecret.data TLSPrivateKeyKey ≠ fooSecretNewKey.data TLSPrivateKeyKey ∧
    fooSecret.data TLSCertKey = fooSecretNewKey.data TLSCertKey ∧
    (exampleAgent.ensureCertificateSynchronized fooSecret hardLinkedWorld).1 = none ∧
    (exampleAgent.ensureCertificateSynchronized fooSecretNewKey
      (exampleAgent.ensureCertificateSynchronized fooSecret hardLinkedWorld).2).1 = none ∧
    (exampleAgent.ensureCertificateSynchronized fooSecretNewKey
      (exampleAgent.ensureCertificateSynchronized fooSecret hardLinkedWorld).2).2.fs.contents
        "/certs/kube-system/foo.key" = some (bytesOf "certificatedata") ∧
    writesTo "/certs/kube-system/foo.crt"
      (callsSince (exampleAgent.ensureCertificateSynchronized fooSecret hardLinkedWorld).2
        (exampleAgent.ensureCertificateSynchronized fooSecretNewKey
          (exampleAgent.ensureCertificateSynchronized fooSecret hardLinkedWorld).2).2) = 1 ∧
    (exampleAgent.ensureCertificateSynchronized fooSecret deviceWorld).1 = none ∧
    (exampleAgent.ensureCertificateSynchronized fooSecretNewKey
      (exampleAgent.ensureCertificateSynchronized fooSecret deviceWorld).2).1 = none ∧
    (exampleAgent.ensureCertificateSynchronized fooSecretNewKey
      (exampleAgent.ensureCertificateSynchronized fooSecret deviceWorld).2).2.fs.contents
        "/certs/kube-system/foo.key" = some [] := by
  decide

/-- C9, amended: in a filesystem state where the `.key` and the `.crt` path do
not lead to one file and neither leads to a device, two secrets with the same
namespace and name are synchronized one after the other, both calls
succeeding. Afterwards each of the two files holds exactly the payload of the
second secret, and the second call makes exactly one `WriteFile` call on a file
whose payload differs between the two secrets and none on a file whose payload
is the same. -/
theorem sync_converges (a : Agent) (s1 s2 : Secret) (w : World)
    (hns : s1.Namespace = s2.Namespace) (hn : s1.Name = s2.Name)
    (h1 : (a.ensureCertificateSynchronized s1 w).1 = none)
    (h2 : (a.ensureCertificateSynchronized s2
      (a.ensureCertificateSynchronized s1 w).2).1 = none)
    (hapart : w.fs.apart (a.privateKeyPath s1) (a.certificatePath s1) = true)
    (hkey : w.fs.plain (a.privateKeyPath s1) = true)
    (hcrt : w.fs.plain (a.certificatePath s1) = true) :
    (a.ensureCertificateSynchronized s2
        (a.ensureCertificateSynchronized s1 w).2).2.fs.contents (a.privateKeyPath s2) =
      some (s2.data TLSPrivateKeyKey) ∧
    (a.ensureCertificateSynchronized s2
        (a.ensureCertificateSynchronized s1 w).2).2.fs.contents (a.certificatePath s2) =
      some (s2.data TLSCertKey) ∧
    writesTo (a.privateKeyPath s2)
        (callsSince (a.ensureCertificateSynchronized s1 w).2
          (a.ensureCertificateSynchronized s2 (a.ensureCertificateSynchronized s1 w).2).2) =
      (if s1.data TLSPrivateKeyKey = s2.data TLSPrivateKeyKey then 0 else 1) ∧
    writesTo (a.certificatePath s2)
        (callsSince (a.ensureCertificateSynchronized s1 w).2
          (a.ensureCertificateSynchronized s2 (a.ensureCertificateSynchronized s1 w).2).2) =
      (if s1.data TLSCertKey = s2.data TLSCertKey then 0 else 1) ∧
    writes
        (callsSince (a.ensureCertificateSynchronized s1 w).2
          (a.ensureCertificateSynchronized s2 (a.ensureCertificateSynchronized s1 w).2).2) =
      (if s1.data TLSPrivateKeyKey = s2.data TLSPrivateKeyKey then 0 else 1) +
      (if s1.data TLSCertKey = s2.data TLSCertKey then 0 else 1) := by
  have es : a.subdir s1 = a.subdir s2 := by simp [Agent.subdir, hns]
  have ek : a.privateKeyPath s1 = a.privateKeyPath s2 := by
    simp [Agent.privateKeyPath, es, hn]
  have ec : a.certificatePath s1 = a.certificatePath s2 := by
    simp [Agent.certificatePath, es, hn]
  obtain ⟨-, rk, rc, hsync, -⟩ := sync_post a s1 w h1 hapart hkey hcrt
  rw [es, ek, ec] at hsync
  obtain ⟨ha2, hk2, hc2⟩ := FS.synced_apart_plain _ _ _ _ _ _ _ _ hsync
  obtain ⟨-, rk2, rc2, hsync2, -⟩ := sync_post a s2 _ h2 ha2 hk2 hc2
  obtain ⟨c1, c2⟩ := FS.synced_contents _ _ _ _ _ _ _ _ hsync2
  have ht := sync_trace_on_synced a s2 _ _ _ _ _ hsync h2
  have hkc : a.privateKeyPath s2 ≠ a.certificatePath s2 :=
    Agent.privateKeyPath_ne_certificatePath a s2
  have hck : a.certificatePath s2 ≠ a.privateKeyPath s2 := fun e => hkc e.symm
  rw [callsSince_of_trace _ _ _ ht]
  refine ⟨c1, c2, ?_, ?_, ?_⟩
  · by_cases e1 : s1.data TLSPrivateKeyKey = s2.data TLSPrivateKeyKey <;>
      by_cases e2 : s1.data TLSCertKey = s2.data TLSCertKey <;>
      simp [writesTo, e1, e2, hkc, hck]
  · by_cases e1 : s1.data TLSPrivateKeyKey = s2.data TLSPrivateKeyKey <;>
      by_cases e2 : s1.data TLSCertKey = s2.data TLSCertKey <;>
      simp [writesTo, e1, e2, hkc, hck]
  · by_cases e1 : s1.data TLSPrivateKeyKey = s2.data TLSPrivateKeyKey <;>
      by_cases e2 : s1.data TLSCertKey = s2.data TLSCertKey <;>
      simp [writes, e1, e2]

/-- The renewal of `kube-system/foo` as an instance of C9, amended: both files
are overwritten once and hold the renewed payloads. -/
theorem sync_converges_witness :
    (fooSecret.Namespace = fooSecretRenewed.Namespace ∧
      fooSecret.Name = fooSecretRenewed.Name ∧
      (exampleAgent.ensureCertificateSynchronized fooSecret exampleWorld).1 = none ∧
      (exampleAgent.ensureCertificateSynchronized fooSecretRenewed
        (exampleAgent.ensureCertificateSynchronized fooSecret exampleWorld).2).1 = none ∧
      exampleWorld.fs.apart (exampleAgent.privateKeyPath fooSecret)
        (exampleAgent.certificatePath fooSecret) = true ∧
      exampleWorld.fs.plain (exampleAgent.privateKeyPath fooSecret) = true ∧
      exampleWorld.fs.plain (exampleAgent.certificatePath fooSecret) = true) ∧
    ((exampleAgent.ensureCertificateSynchronized fooSecretRenewed
        (exampleAgent.ensureCertificateSynchronized fooSecret exampleWorld).2).2.fs.contents
          "/certs/kube-system/foo.key" = some (bytesOf "new-privatekeydata") ∧
      (exampleAgent.ensureCertificateSynchronized fooSecretRenewed
        (exampleAgent.ensureCertificateSynchronized fooSecret exampleWorld).2).2.fs.contents
          "/certs/kube-system/foo.crt" = some (bytesOf "new-certificatedata") ∧
      writesTo "/certs/kube-system/foo.key"
        (callsSince (exampleAgent.ensureCertificateSynchronized fooSecret exampleWorld).2
          (exampleAgent.ensureCertificateSynchronized fooSecretRenewed
            (exampleAgent.ensureCertificateSynchronized fooSecret exampleWorld).2).2) = 1 ∧
      writesTo "/certs/kube-system/foo.crt"
        (callsSince (exampleAgent.ensureCertificateSynchronized fooSecret exampleWorld).2
          (exampleAgent.ensureCertificateSynchronized fooSecretRenewed
            (exampleAgent.ensureCertificateSynchronized fooSecret exampleWorld).2).2) = 1 ∧
      writes
        (callsSince (exampleAgent.ensureCertificateSynchronized fooSecret exampleWorld).2
          (exampleAgent.ensureCertificateSynchronized fooSecretRenewed
            (exampleAgent.ensureCertificateSynchronized fooSecret exampleWorld).2).2) = 2) :=
  ⟨⟨rfl, rfl, by decide, by decide, by decide, by decide, by decide⟩,
   sync_converges exampleAgent fooSecret fooSecretRenewed exampleWorld rfl rfl
     (by decide) (by decide) (by decide) (by decide) (by decide)⟩

/-! ## `ensureCertificateDeleted` -/

theorem os.Remove_spec (p : String) (w : World) :
    (os.Remove p w).2.trace = w.trace ++ [.Remove p] ∧
    (∀ q, q ≠ p → (os.Remove p w).2.fs.names.lookup q = w.fs.names.lookup q) ∧
    (∀ e, (os.Remove p w).1 = some e →
      os.Remove p w = (some e, { w with trace := w.trace ++ [.Remove p] })) ∧
    (w.fs.names.lookup p = none → (os.Remove p w).1 ≠ none) := by
  unfold os.Remove World.record
  cases hp : w.fs.parent p with
  | error e => simp
  | ok b =>
    cases hl : w.fs.names.lookup p with
    | none => simp
    | some n =>
      cases n with
      | dir s wr =>
        by_cases hc : w.fs.hasChild p = true
        · simp [hc]
        · cases b
          · simp [hc]
          · simp [hc, FS.eraseName, lookup_filter_ne]
            intro q hq
            simp [hq]
      | file i =>
        cases b
        · simp
        · simp [FS.eraseName, lookup_filter_ne]
          intro q hq
          simp [hq]
      | symlink t =>
        cases b
        · simp
        · simp [FS.eraseName, lookup_filter_ne]
          intro q hq
          simp [hq]

/-- C6: `ensureCertificateDeleted` calls `Remove` on the `.key` path first. If
that removal fails (as it does when there is nothing at the `.key` path), the
call returns that error, makes no other call and leaves the whole filesystem
state, the `.crt` file with its contents included, as it was; if it succeeds
the next and last call is `Remove` on the `.crt` path. For every secret whose
name contains no slash, as for every name the Kubernetes API admits, and
whenever neither of the two paths is the directory `<certDir>/<namespace>`
itself, the entry of that directory is the same before and after the call. -/
theorem delete_ordering (a : Agent) (s : Secret) (w : World) :
    (∃ rest, (a.ensureCertificateDeleted s w).2.trace =
      w.trace ++ .Remove (a.privateKeyPath s) :: rest) ∧
    (∀ e, (os.Remove (a.privateKeyPath s) w).1 = some e →
      a.ensureCertificateDeleted s w =
          (some e, { w with trace := w.trace ++ [.Remove (a.privateKeyPath s)] }) ∧
        (a.ensureCertificateDeleted s w).2.fs = w.fs ∧
        (a.ensureCertificateDeleted s w).2.fs.contents (a.certificatePath s) =
          w.fs.contents (a.certificatePath s)) ∧
    (w.fs.names.lookup (a.privateKeyPath s) = none →
      (a.ensureCertificateDeleted s w).1 ≠ none ∧
        (a.ensureCertificateDeleted s w).2.fs = w.fs) ∧
    ((os.Remove (a.privateKeyPath s) w).1 = none →
      (a.ensureCertificateDeleted s w).2.trace =
        w.trace ++ [.Remove (a.privateKeyPath s), .Remove (a.certificatePath s)]) ∧
    (a.privateKeyPath s ≠ a.subdir s → a.certificatePath s ≠ a.subdir s →
      (a.ensureCertificateDeleted s w).2.fs.names.lookup (a.subdir s) =
        w.fs.names.lookup (a.subdir s)) ∧
    ('/' ∉ s.Name.data →
      (a.ensureCertificateDeleted s w).2.fs.names.lookup (path.Join a.certDir s.Namespace) =
        w.fs.names.lookup (path.Join a.certDir s.Namespace)) := by
  obtain ⟨ht, hframe, herr, hmiss⟩ := os.Remove_spec (a.privateKeyPath s) w
  have hfail : ∀ e, (os.Remove (a.privateKeyPath s) w).1 = some e →
      a.ensureCertificateDeleted s w =
        (some e, { w with trace := w.trace ++ [.Remove (a.privateKeyPath s)] }) := by
    intro e he
    unfold Agent.ensureCertificateDeleted
    rw [herr e he]
  have hok : (os.Remove (a.privateKeyPath s) w).1 = none →
      a.ensureCertificateDeleted s w =
        ((os.Remove (a.certificatePath s) (os.Remove (a.privateKeyPath s) w).2).1,
         (os.Remove (a.certificatePath s) (os.Remove (a.privateKeyPath s) w).2).2) := by
    intro he
    unfold Agent.ensureCertificateDeleted
    rcases hr : os.Remove (a.privateKeyPath s) w with ⟨e1, w1⟩
    rw [hr] at he
    simp only at he
    subst he
    simp only
    rcases hr2 : os.Remove (a.certificatePath s) w1 with ⟨e2, w2⟩
    cases e2 <;> rfl
  have hdir : a.privateKeyPath s ≠ a.subdir s → a.certificatePath s ≠ a.subdir s →
      (a.ensureCertificateDeleted s w).2.fs.names.lookup (a.subdir s) =
        w.fs.names.lookup (a.subdir s) := by
    intro hk hc
    cases he : (os.Remove (a.privateKeyPath s) w).1 with
    | some e => rw [hfail e he]
    | none =>
      rw [hok he]
      simp only
      rw [(os.Remove_spec (a.certificatePath s) _).2.1 _ (fun e => hc e.symm),
        hframe _ (fun e => hk e.symm)]
  refine ⟨?_, ?_, ?_, ?_, hdir, ?_⟩
  · cases he : (os.Remove (a.privateKeyPath s) w).1 with
    | some e =>
      rw [hfail e he]
      exact ⟨[], rfl⟩
    | none =>
      rw [hok he]
      simp only
      rw [(os.Remove_spec (a.certificatePath s) _).1, ht]
      exact ⟨[.Remove (a.certificatePath s)], by simp⟩
  · intro e he
    rw [hfail e he]
    exact ⟨rfl, rfl, rfl⟩
  · intro hl
    cases he : (os.Remove (a.privateKeyPath s) w).1 with
    | some e =>
      rw [hfail e he]
      simp
    | none => exact absurd he (hmiss hl)
  · intro he
    rw [hok he]
    simp only
    rw [(os.Remove_spec (a.certificatePath s) _).1, ht]
    simp
  · intro hn
    obtain ⟨hk, hc⟩ := Agent.paths_ne_subdir a s hn
    exact hdir hk hc

/-- The deletion of `kube-system/foo`, once after its synchronization and once
with no file there, as an instance of C6: the name `foo` has no slash and the
directory `/certs/kube-system` is still there after both files are removed;
with no `.key` file the call returns `ENOENT` and changes nothing. -/
theorem delete_ordering_witness :
    ('/' ∉ fooSecret.Name.data ∧
      (exampleAgent.ensureCertificateDeleted fooSecret
        (exampleAgent.ensureCertificateSynchronized fooSecret exampleWorld).2).2.fs.names.lookup
          "/certs/kube-system" = some (.dir true true)) ∧
    ((os.Remove (exampleAgent.privateKeyPath fooSecret) exampleWorld).1 = some .ENOENT ∧
      exampleAgent.ensureCertificateDeleted fooSecret exampleWorld =
        (some .ENOENT,
          { exampleWorld with trace := [.Remove "/certs/kube-system/foo.key"] })) :=
  ⟨⟨by decide,
    ((delete_ordering exampleAgent fooSecret
      (exampleAgent.ensureCertificateSynchronized fooSecret exampleWorld).2).2.2.2.2.2
        (by decide)).trans (by decide)⟩,
   ⟨by decide,
    ((delete_ordering exampleAgent fooSecret exampleWorld).2.1 .ENOENT (by decide)).1⟩⟩

end CertSync
